import Mathlib

/-!
Verification of the market-analysis research pipeline against its
natural-language specification.

The development shallowly embeds the relevant Python functions of the
repository (agents/data_extraction_agent/agent.py,
agents/data_extraction_agent/neo4j_storage.py, agents/analysis_agent/agent.py,
agents/analysis_agent/app.py, agents/analysis_agent/config.py) as executable
Lean definitions.  Python strings are modelled as lists of characters
(`Str := List Char`); Python dictionaries whose key sets matter are modelled
as association lists; fallible operations return `Option`.
-/

/-- Python strings are modelled as lists of characters. -/
abbrev Str := List Char

/-- Character-wise lower-casing; models Python's `str.lower()` on the ASCII
range (the CJK characters appearing in this repository are unaffected by
`lower()` on both sides of the embedding). -/
def pyLower (s : Str) : Str := s.map Char.toLower

/-- Whitespace test used by Python's `str.strip()` and the regex class `\s`
(ASCII range: space, tab, newline, vertical tab, form feed, carriage
return). -/
def pyIsSpace (c : Char) : Bool :=
  c = ' ' || c = '\t' || c = '\n' || c = '\x0b' || c = '\x0c' || c = '\r'

/-- Word-character test modelling the regex class `\w`: ASCII alphanumerics,
the underscore, and (as in Python's Unicode-aware `\w` for the CJK text this
repository handles) every non-ASCII character. -/
def pyIsWordChar (c : Char) : Bool :=
  c.isAlphanum || c = '_' || 128 ≤ c.val

/-- Python's `str.strip()`: drop leading and trailing whitespace. -/
def pyStrip (s : Str) : Str :=
  ((s.dropWhile pyIsSpace).reverse.dropWhile pyIsSpace).reverse

/-- The corporate suffixes stripped by `_normalize_entity_name`
(agent.py line 691), in their source order. -/
def orgSuffixes : List Str :=
  ["inc".toList, "ltd".toList, "llc".toList, "corp".toList,
   "corporation".toList, "company".toList, "co".toList]

/-- One iteration of the suffix loop of `_normalize_entity_name`:
`if normalized.endswith(suffix): normalized = normalized[:-len(suffix)]`. -/
def stripOneSuffix (n : Str) (suf : Str) : Str :=
  if suf <:+ n then n.take (n.length - suf.length) else n

/-- The two regex substitutions of `_normalize_entity_name`
(`re.sub(r'[^\w\s]', '', name.lower())` followed by `re.sub(r'\s+', '', ...)`):
together they keep exactly the word characters of the lower-cased name,
because `\w` and `\s` are disjoint. -/
def cleanCore (name : Str) : Str := (pyLower name).filter pyIsWordChar

/-- Embeds `_normalize_entity_name` (agent.py lines 684-696): lower-case, drop
punctuation and whitespace, strip each corporate suffix at most once in the
fixed source order, and finally `strip()` (a no-op on the
whitespace-free intermediate string, kept for fidelity). -/
def normalizeEntityName (name : Str) : Str :=
  pyStrip (orgSuffixes.foldl stripOneSuffix (cleanCore name))

/-! Entity records and `_advanced_deduplicate_entities` (agent.py 631-682). -/
/-- One `{title, url}` provenance record appended to an entity's `sources`. -/
structure SourceRef where
  title : Str
  url : Str
deriving DecidableEq, Repr

/-- An entity record as passed around by the extraction agent.  Keys that a
record may lack (`type`, `importance`, `key_facts`, `sources`,
`normalized_name`) are `Option`s with `none` modelling an absent key; keys
that every consumer reads through `get(..., "")` (`name`, `description`,
`source_title`, `source_url`) are plain strings, since an absent key and the
empty string are observationally equal there.  `relevance_score` is read via
`get("relevance_score", 0)`, so a plain `Nat` with default 0 is faithful. -/
structure Entity where
  name : Str
  entityType : Option Str
  description : Str
  importance : Option Str
  key_facts : Option (List Str)
  sources : Option (List SourceRef)
  source_title : Str
  source_url : Str
  normalized_name : Option Str
  relevance_score : Nat
deriving DecidableEq, Repr

/-- Provenance entry contributed by one record during a merge
(`{"title": e.get("source_title",""), "url": e.get("source_url","")}`). -/
def mkSourceRef (e : Entity) : SourceRef := ⟨e.source_title, e.source_url⟩

/-- First record of a group entering the map (agent.py 673-680): it receives
its normalized name and a singleton `sources` list (overwriting any prior
`sources` value, as the assignment in the source does). -/
def initMerged (e : Entity) (k : Str) : Entity :=
  { e with normalized_name := some k, sources := some [mkSourceRef e] }

/-- Merge of a later record `e` into the stored entity `ex`
(agent.py 647-671): keep the strictly longer description, append one
provenance entry, concatenate `key_facts` when `e` has the key, and promote
`importance` to "high" only when `e` is "high". -/
def mergeInto (ex e : Entity) : Entity :=
  { ex with
      description :=
        if ex.description.length < e.description.length then e.description
        else ex.description,
      sources := some (ex.sources.getD [] ++ [mkSourceRef e]),
      key_facts :=
        match e.key_facts with
        | some kf => some (ex.key_facts.getD [] ++ kf)
        | none => ex.key_facts,
      importance :=
        if e.importance = some "high".toList then some "high".toList
        else ex.importance }

/-- Lookup in the association list modelling the `entity_map` dict. -/
def assocFind (m : List (Str × Entity)) (k : Str) : Option Entity :=
  match m with
  | [] => none
  | p :: rest => if p.1 = k then some p.2 else assocFind rest k

/-- In-place update of the binding of key `k` (Python mutates the stored
dict). -/
def assocUpdate (m : List (Str × Entity)) (k : Str) (f : Entity → Entity) :
    List (Str × Entity) :=
  match m with
  | [] => []
  | p :: rest =>
      if p.1 = k then (p.1, f p.2) :: rest else p :: assocUpdate rest k f

/-- Normalized grouping key of a record: `_normalize_entity_name` applied to
the stripped name (agent.py 640-645). -/
def entityKey (e : Entity) : Str := normalizeEntityName (pyStrip e.name)

/-- One loop iteration of `_advanced_deduplicate_entities`: records whose
stripped name is shorter than 2 characters are skipped (`if not name or
len(name) < 2: continue`; emptiness is subsumed by the length test). -/
def dedupStep (m : List (Str × Entity)) (e : Entity) : List (Str × Entity) :=
  if (pyStrip e.name).length < 2 then m
  else
    let k := entityKey e
    match assocFind m k with
    | some _ => assocUpdate m k (fun ex => mergeInto ex e)
    | none => m ++ [(k, initMerged e k)]

/-- Embeds `_advanced_deduplicate_entities(entities, query)` (agent.py 631-682); the
`query` parameter is unused by the source function and kept for fidelity.
The Python dict iterates its values in key-insertion order, which the
association list preserves. -/
def advancedDeduplicateEntities (entities : List Entity) (query : Str) :
    List Entity :=
  (entities.foldl dedupStep []).map (fun p => p.2)

/-- The records of the input list that survive the validity test and fall in
the group of normalized key `k`. -/
def entityGroup (entities : List Entity) (k : Str) : List Entity :=
  entities.filter (fun e => decide (2 ≤ (pyStrip e.name).length ∧ entityKey e = k))

/-! C3 claim theorems. -/
/-- Sample raw record: "Acme" with importance "low". -/
def sampleEntityLow : Entity :=
  { name := "Acme".toList, entityType := none, description := "d1".toList,
    importance := some "low".toList, key_facts := none, sources := none,
    source_title := "t1".toList, source_url := "u1".toList,
    normalized_name := none, relevance_score := 0 }

/-- Sample raw record: "acme" (same normalized key) with importance
"medium" and a longer description. -/
def sampleEntityMed : Entity :=
  { name := "acme".toList, entityType := none,
    description := "longer desc x".toList,
    importance := some "medium".toList, key_facts := none, sources := none,
    source_title := "t2".toList, source_url := "u2".toList,
    normalized_name := none, relevance_score := 0 }

/-- The record `_advanced_deduplicate_entities` produces for the group
{sampleEntityLow, sampleEntityMed}. -/
def sampleMergedEntity : Entity :=
  { name := "Acme".toList, entityType := none,
    description := "longer desc x".toList,
    importance := some "low".toList, key_facts := none,
    sources := some [⟨"t1".toList, "u1".toList⟩, ⟨"t2".toList, "u2".toList⟩],
    source_title := "t1".toList, source_url := "u1".toList,
    normalized_name := some "acme".toList, relevance_score := 0 }

/-! Relationship records, `_advanced_deduplicate_relationships` and
`_reverse_relation` (agent.py 698-728). -/
/-- A relationship record.  `relation` and `strength` are `Option`s because
their two consumers default an absent key differently
(`get("relation", "")` in deduplication, `get("relation", "相關")` and
`get("strength", "medium")` in storage); `source`, `target` and
`description` are read only through `get(..., "")`. -/
structure Relationship where
  source : Str
  target : Str
  relation : Option Str
  description : Str
  strength : Option Str
deriving DecidableEq, Repr

/-- Embeds `_reverse_relation` (agent.py 718-728): a fixed six-entry map, identity
outside it.  Note that it is not an involution: the mapped values (such as
"被領導") are not themselves keys. -/
def reverseRelation (rel : Str) : Str :=
  if rel = "領導".toList then "被領導".toList
  else if rel = "投資".toList then "被投資".toList
  else if rel = "收購".toList then "被收購".toList
  else if rel = "創立".toList then "由創立".toList
  else if rel = "使用".toList then "被使用".toList
  else if rel = "開發".toList then "被開發".toList
  else rel

/-- Normalized relation label: `r.get("relation", "").strip().lower()`. -/
def relLabel (r : Relationship) : Str := pyLower (pyStrip (r.relation.getD []))

/-- Forward key of a record: `(normalize(source), relation, normalize(target))`. -/
def relKeyFwd (r : Relationship) : Str × Str × Str :=
  (normalizeEntityName r.source, relLabel r, normalizeEntityName r.target)

/-- Mirror key of a record: `(normalize(target), reverse(relation), normalize(source))`. -/
def relKeyRev (r : Relationship) : Str × Str × Str :=
  (normalizeEntityName r.target, reverseRelation (relLabel r),
   normalizeEntityName r.source)

/-- One loop iteration of `_advanced_deduplicate_relationships`
(agent.py 703-714): keep the record (and remember only its forward key) iff
neither its forward key nor its mirror key was seen and both normalized
endpoints are nonempty. -/
def relDedupStep (acc : List (Str × Str × Str) × List Relationship)
    (r : Relationship) : List (Str × Str × Str) × List Relationship :=
  if relKeyFwd r ∉ acc.1 ∧ relKeyRev r ∉ acc.1 ∧
     normalizeEntityName r.source ≠ [] ∧ normalizeEntityName r.target ≠ []
  then (acc.1 ++ [relKeyFwd r], acc.2 ++ [r])
  else acc

/-- Embeds `_advanced_deduplicate_relationships(relationships)` (agent.py 698-716).
The Python `seen` set is modelled as a list queried by membership. -/
def advancedDeduplicateRelationships (relationships : List Relationship) :
    List Relationship :=
  (relationships.foldl relDedupStep ([], [])).2

/-- Sample edge (Alpha, 領導, Beta). -/
def sampleRelLead : Relationship :=
  { source := "Alpha".toList, target := "Beta".toList,
    relation := some "領導".toList, description := [], strength := none }

/-- Sample edge (Beta, 被領導, Alpha): the mirror of `sampleRelLead` under
`_reverse_relation`. -/
def sampleRelLed : Relationship :=
  { source := "Beta".toList, target := "Alpha".toList,
    relation := some "被領導".toList, description := [], strength := none }

/-! Scoring: `_score_and_rank_entities` (agent.py 730-789). -/
/-- Number of relationship mentions of a (raw, un-normalized) entity name:
the `entity_mentions` dict of agent.py 734-739 counts one per occurrence as
`source` plus one per occurrence as `target`, so a name's count is the number
of edges naming it as source plus the number naming it as target. -/
def mentionCount (relationships : List Relationship) (name : Str) : Nat :=
  relationships.countP (fun r => decide (r.source = name)) +
  relationships.countP (fun r => decide (r.target = name))

/-- The sequential score accumulation of agent.py 748-784 (`score = 0`
followed by seven conditional `score +=` steps), written as the
left-associated sum the statements compute. -/
def scoreEntity (qLower : Str) (mentions : Nat) (e : Entity) : Nat :=
  0 +
  (if qLower <:+: pyLower e.name then 10 else 0) +
  (if qLower <:+: pyLower e.description then 5 else 0) +
  (if e.importance.getD "medium".toList = "high".toList then 8
   else if e.importance.getD "medium".toList = "medium".toList then 4 else 0) +
  min (mentions * 2) 10 +
  (if 100 < e.description.length then 3
   else if 50 < e.description.length then 1 else 0) +
  (e.key_facts.getD []).length +
  min (e.sources.getD []).length 5

/-- The claimed score: the exact sum "+10 if the query appears in the name,
+5 if in the description, +8 for high or +4 for medium importance,
+min(2 x mention count, 10), +3 if the description exceeds 100 characters
else +1 if it exceeds 50, +len(key_facts), +min(len(sources), 5)", written
from the specification sentence. -/
def specEntityScore (query : Str) (relationships : List Relationship)
    (e : Entity) : Nat :=
  (if pyLower query <:+: pyLower e.name then 10 else 0) +
  (if pyLower query <:+: pyLower e.description then 5 else 0) +
  (if e.importance.getD "medium".toList = "high".toList then 8
   else if e.importance.getD "medium".toList = "medium".toList then 4 else 0) +
  min (2 * mentionCount relationships e.name) 10 +
  (if 100 < e.description.length then 3
   else if 50 < e.description.length then 1 else 0) +
  (e.key_facts.getD []).length +
  min (e.sources.getD []).length 5

/-- Stable descending insertion: `x` goes in front of the first element whose
score it matches or exceeds, so earlier input elements win ties.  This is the
semantics of Python's stable `list.sort(key=..., reverse=True)`, which the
embedding realises as an insertion sort. -/
def insertByScoreDesc (x : Entity) : List Entity → List Entity
  | [] => [x]
  | y :: ys =>
      if y.relevance_score ≤ x.relevance_score then x :: y :: ys
      else y :: insertByScoreDesc x ys

/-- Stable sort by descending `relevance_score`. -/
def stableSortByScoreDesc (l : List Entity) : List Entity :=
  l.foldr insertByScoreDesc []

/-- Embeds `_score_and_rank_entities(entities, relationships, query)`: assign each
entity its accumulated score (into `relevance_score`) and sort the list by
score, descending and stable. -/
def scoreAndRankEntities (entities : List Entity)
    (relationships : List Relationship) (query : Str) : List Entity :=
  stableSortByScoreDesc (entities.map (fun e =>
    { e with relevance_score :=
        scoreEntity (pyLower query) (mentionCount relationships e.name) e }))

/-! Parsing: `_parse_json_response` (agent.py 598-625) and the basic-extraction chunk
loop of `_deep_process_document` (agent.py 182-188). -/
/-- Decoded JSON values (the possible results of `json.loads`). -/
inductive Json where
  | null : Json
  | bool (b : Bool) : Json
  | num (n : Int) : Json
  | str (s : Str) : Json
  | arr (elems : List Json) : Json
  | obj (fields : List (Str × Json)) : Json

/-- Try to consume one occurrence of the pattern of
`re.sub(r'```(json)?\s*', '', text)` at the head of the string: three
backquotes, an optional literal "json", then greedy whitespace. -/
def matchFence (s : Str) : Option Str :=
  match s with
  | '`' :: '`' :: '`' :: rest =>
      let rest2 :=
        match rest with
        | 'j' :: 's' :: 'o' :: 'n' :: r => r
        | _ => rest
      some (rest2.dropWhile pyIsSpace)
  | _ => none

/-- Left-to-right scan applying `matchFence` at every position, like
`re.sub`'s non-overlapping substitution.  The fuel strictly exceeds the
number of scan steps (each step consumes at least one character). -/
def stripFencesGo : Nat → Str → Str
  | 0, s => s
  | _, [] => []
  | fuel + 1, c :: rest =>
      match matchFence (c :: rest) with
      | some r => stripFencesGo fuel r
      | none => c :: stripFencesGo fuel rest

/-- Embeds `re.sub` of the fence pattern over the whole text. -/
def stripCodeFences (s : Str) : Str := stripFencesGo s.length s

/-- Index of the last character satisfying `p` (Python `str.rfind` over a
character class), if any. -/
def rfindIdx (s : Str) (p : Char → Bool) : Option Nat :=
  (s.reverse.findIdx? p).map (fun i => s.length - 1 - i)

/-- The span matched by `re.search(r'\{.*\}', text, re.DOTALL)`: from the
first opening brace to the last closing brace, provided the latter comes
after the former. -/
def extractBraceSpan (s : Str) : Option Str :=
  match s.findIdx? (fun c => c = '{'), rfindIdx s (fun c => c = '}') with
  | some i, some j => if i < j then some ((s.drop i).take (j + 1 - i)) else none
  | _, _ => none

/-- Field lookup in a decoded JSON object (`dict` access by key). -/
def lookupField (fields : List (Str × Json)) (k : Str) : Option Json :=
  match fields with
  | [] => none
  | p :: rest => if p.1 = k then some p.2 else lookupField rest k

/-- Models `dict.setdefault(k, v)`: insert `(k, v)` at the end iff `k` is absent. -/
def setdefaultField (fields : List (Str × Json)) (k : Str) (v : Json) :
    List (Str × Json) :=
  match lookupField fields k with
  | some _ => fields
  | none => fields ++ [(k, v)]

/-- Replace the value bound to key `k` (models Python's in-place mutation of
the entity dicts held inside the parsed object). -/
def updateField (fields : List (Str × Json)) (k : Str) (v : Json) :
    List (Str × Json) :=
  match fields with
  | [] => []
  | p :: rest =>
      if p.1 = k then (p.1, v) :: rest else p :: updateField rest k v

/-- The `entity.setdefault(...)` block of agent.py 614-619 applied to one
element of the "entities" list.  A non-dict element has no `setdefault`, so
the iteration raises and the whole parse returns `None` (modelled as
`none`). -/
def applyEntityDefaults (title url : Str) : Json → Option Json
  | .obj f =>
      some (.obj (setdefaultField (setdefaultField (setdefaultField
        (setdefaultField (setdefaultField f
          "source_title".toList (.str title))
          "source_url".toList (.str url))
          "type".toList (.str "未分類".toList))
          "description".toList (.str []))
          "importance".toList (.str "medium".toList)))
  | _ => none

/-- Apply `applyEntityDefaults` to every element, failing if any fails (the
Python loop raises at the first bad element and the parse returns `None`). -/
def applyAllEntityDefaults (title url : Str) : List Json → Option (List Json)
  | [] => some []
  | x :: xs =>
      match applyEntityDefaults title url x, applyAllEntityDefaults title url xs with
      | some y, some ys => some (y :: ys)
      | _, _ => none

/-- The defaults pass of `_parse_json_response` on the parsed top-level
object: iterate `parsed.get("entities", [])`.  An absent key or an empty
iterable runs the loop zero times; a list requires every element to be a
dict; any other non-empty value raises during iteration or `setdefault`, and
the enclosing `except` turns that into `None`. -/
def applyParsedDefaults (title url : Str) (fields : List (Str × Json)) :
    Option (List (Str × Json)) :=
  match lookupField fields "entities".toList with
  | none => some fields
  | some (.arr es) =>
      match applyAllEntityDefaults title url es with
      | some es2 => some (updateField fields "entities".toList (.arr es2))
      | none => none
  | some (.str []) => some fields
  | some (.obj []) => some fields
  | some _ => none

/-- Embeds `_parse_json_response(text, source_title, source_url)` (agent.py
598-625), with `json.loads` abstracted as a `decode` oracle.  A falsy input
(the `None` returned by `_call_ollama` on failure, or the empty string)
returns `None` immediately; otherwise markdown fences are stripped, the
first-to-last brace span (or, failing that, the whole cleaned text) is
decoded, and the defaults pass runs; every raised exception is caught and
becomes `None`. -/
def parseJsonResponse (decode : Str → Option Json) (text : Str)
    (title url : Str) : Option Json :=
  if text.isEmpty then none
  else
    match decode ((extractBraceSpan (stripCodeFences text)).getD
        (stripCodeFences text)) with
    | some (.obj fields) =>
        match applyParsedDefaults title url fields with
        | some f2 => some (.obj f2)
        | none => none
    | some _ => none
    | none => none

/-- Python truthiness of a decoded JSON value (`if extraction:`). -/
def jsonTruthy : Json → Bool
  | .null => false
  | .bool b => b
  | .num n => n != 0
  | .str s => !s.isEmpty
  | .arr l => !l.isEmpty
  | .obj f => !f.isEmpty

/-- The first-pass chunk loop of `_deep_process_document` (agent.py
182-188): each chunk's parse result contributes its entities and
relationships to the running lists iff it is truthy (`if extraction:`); the
extraction of the two lists from the parsed object is abstracted as
`contrib`. -/
def basicPassAccumulate (contrib : Json → List Json × List Json)
    (parses : List (Option Json)) : List Json × List Json :=
  parses.foldl (fun acc p =>
    match p with
    | some j =>
        if jsonTruthy j then (acc.1 ++ (contrib j).1, acc.2 ++ (contrib j).2)
        else acc
    | none => acc) ([], [])

/-! Chunking: `_split_into_chunks` (agent.py 252-277), called with `overlap=500` and
the default chunk size 4000 (agent.py 30, 174). -/
/-- Python slice `text[start:fin]` for `0 ≤ start ≤ fin`. -/
def sliceChunk (text : Str) (start fin : Nat) : Str :=
  (text.drop start).take (fin - start)

/-- One loop body of `_split_into_chunks`: the tentative chunk
`text[start:start+chunk_size]`, shortened to the last sentence boundary
(`max(chunk.rfind('.'), chunk.rfind('\n'))`) when one falls in the last 30%
of the window and the window does not already reach the end of the text.
Returns the chunk together with the (possibly reduced) `end`.  The float
comparison `split_point > chunk_size * 0.7` is modelled exactly by
`10 * split_point > 7 * chunk_size`; at the call-site chunk size 4000 the
float product is exactly 2800.0, so the two comparisons agree. -/
def adjustChunk (text : Str) (cs start : Nat) : Str × Nat :=
  if start + cs < text.length then
    match rfindIdx (sliceChunk text start (start + cs))
        (fun c => c = '.' || c = '\n') with
    | some sp =>
        if 7 * cs < 10 * sp then
          ((sliceChunk text start (start + cs)).take (sp + 1), start + sp + 1)
        else (sliceChunk text start (start + cs), start + cs)
    | none => (sliceChunk text start (start + cs), start + cs)
  else (sliceChunk text start (start + cs), start + cs)

/-- The `while start < len(text)` loop, with explicit fuel; `none` models the
loop not finishing within the given number of iterations.  After each
iteration `start` becomes `end - overlap`. -/
def splitLoop (text : Str) (cs ov : Nat) : Nat → Nat → Option (List Str)
  | 0, _ => none
  | fuel + 1, start =>
      if start < text.length then
        match splitLoop text cs ov fuel ((adjustChunk text cs start).2 - ov) with
        | some rest => some ((adjustChunk text cs start).1 :: rest)
        | none => none
      else some []

/-- Embeds `_split_into_chunks(text, chunk_size, overlap)`: a text no longer than
the chunk size is returned as a single verbatim chunk; otherwise the loop
runs with fuel `len(text) + 1`, which suffices whenever the loop
terminates after at most `len(text)` iterations. -/
def splitIntoChunks (text : Str) (cs ov : Nat) : Option (List Str) :=
  if text.length ≤ cs then some [text]
  else splitLoop text cs ov (text.length + 1) 0

/-! Coverage: `_check_database_coverage` (analysis_agent/agent.py 71-181), the
`/analyze` handler `analyze_query` (analysis_agent/app.py 63-152) and
`MAX_ITERATIONS` (analysis_agent/config.py 10). -/
/-- An entity record returned by the Neo4j query of
`_query_neo4j_entities`; the graph may hold nulls for any property. -/
structure DbEntity where
  name : Option Str
  dtype : Option Str
  description : Option Str
  source_url : Option Str
deriving DecidableEq, Repr

/-- Values appearing in the coverage-result dictionary. -/
inductive PyVal where
  | pbool (b : Bool)
  | pnat (n : Nat)
  | pstr (s : Str)
  | pstrList (l : List Str)
  | pentities (l : List DbEntity)
deriving DecidableEq, Repr

/-- Python truthiness of a coverage-dictionary value. -/
def pyTruthy : PyVal → Bool
  | .pbool b => b
  | .pnat n => n != 0
  | .pstr s => !s.isEmpty
  | .pstrList l => !l.isEmpty
  | .pentities l => !l.isEmpty

/-- Outcome of the Ollama quality judgment inside
`_check_database_coverage`: the call itself can raise (caught by the
function's outer `except`), the response can fail to decode as JSON
(conservative default), or it decodes to a verdict whose "sufficient" field
coerces to a boolean (an absent field defaults to `False`). -/
inductive LlmJudgment where
  | callFailed : LlmJudgment
  | parseFailed (raw : Str) : LlmJudgment
  | parsed (sufficient : Bool) (missingTopics : List Str)
      (reasoning raw : Str) : LlmJudgment
deriving DecidableEq, Repr

/-- Dictionary lookup (`d[k]` / `d.get(k)`): `none` models a missing key. -/
def pyLookup (d : List (Str × PyVal)) (k : Str) : Option PyVal :=
  match d with
  | [] => none
  | p :: rest => if p.1 = k then some p.2 else pyLookup rest k

/-- Embeds `_check_database_coverage(query, search_results)` (agent.py 71-181),
with the Neo4j entity query abstracted as the `dbEntities` it found (its own
failure already yields `[]` inside `_query_neo4j_entities`) and the LLM
interaction abstracted as an `LlmJudgment`.  With fewer than 6 entities the
function short-circuits to an insufficient verdict without consulting the
model; relationship counts are not consulted anywhere.  The dictionaries are
modelled key-for-key after the source's literals. -/
def checkDatabaseCoverage (query : Str) (dbEntities : List DbEntity)
    (llm : LlmJudgment) : List (Str × PyVal) :=
  if dbEntities.length < 6 then
    [("sufficient".toList, .pbool false),
     ("missing_topics".toList, .pstrList ["general".toList, query]),
     ("data".toList, .pentities []),
     ("db_entities_count".toList, .pnat dbEntities.length),
     ("reason".toList, .pstr "資料庫實體數量不足".toList)]
  else
    match llm with
    | .callFailed =>
        [("sufficient".toList, .pbool false),
         ("missing_topics".toList, .pstrList ["general".toList]),
         ("data".toList, .pentities []),
         ("db_entities_count".toList, .pnat 0),
         ("error".toList, .pstr [])]
    | .parseFailed raw =>
        [("sufficient".toList, .pbool false),
         ("missing_topics".toList, .pstrList [query]),
         ("data".toList, .pentities []),
         ("db_entities_count".toList, .pnat dbEntities.length),
         ("reasoning".toList,
           .pstr "無法解析 LLM 回應，採用保守策略".toList),
         ("llm_response".toList, .pstr (raw.take 500))]
    | .parsed b topics reasoning raw =>
        [("sufficient".toList, .pbool b),
         ("missing_topics".toList, .pstrList topics),
         ("data".toList, .pentities (if b then dbEntities else [])),
         ("db_entities_count".toList, .pnat dbEntities.length),
         ("reasoning".toList, .pstr reasoning),
         ("llm_response".toList, .pstr (raw.take 500))]

/-- The coverage rule the specification claims for the first-step check:
sufficient iff `entity_count >= 3 OR relationship_count >= 2` (written from
the specification sentence, for comparison with the code). -/
def claimedCoverageRule (entityCount relationshipCount : Nat) : Bool :=
  decide (3 ≤ entityCount) || decide (2 ≤ relationshipCount)

/-- The verdict flag the LLM outcome contributes. -/
def llmSufficientFlag : LlmJudgment → Bool
  | .parsed b _ _ _ => b
  | _ => false

/-- Embeds `MAX_ITERATIONS` (config.py 10, default 3).  No code under the agents
reads it. -/
def MAX_ITERATIONS : Nat := 3

/-- Observable outcome of one `/analyze` request: the response status, the
presence of a report-shaped body, and how many Search/Extract/Store rounds
were executed. -/
structure AnalyzeOutcome where
  status : Str
  reportPresent : Bool
  searchRounds : Nat
deriving DecidableEq, Repr

/-- The `/analyze` handler `analyze_query` (app.py 63-152).  After the
coverage check (line 84), the statistics log at line 86 subscripts
`coverage['entity_count']` and `coverage['relationship_count']` — keys that
`_check_database_coverage` never returns — so the resulting `KeyError` is
caught by the handler's top-level `except`, which answers with the
error-status report-shaped response.  The branches below the log are modelled
for completeness: the sufficient branch would fail on the undefined
`agent.report_generator` attribute, and the insufficient branch would run
exactly one search/scrape/extract/store round via `orchestrate_workflow`. -/
def analyzeQuery (query : Str) (dbEntities : List DbEntity)
    (llm : LlmJudgment) : AnalyzeOutcome :=
  match pyLookup (checkDatabaseCoverage query dbEntities llm)
          "entity_count".toList,
        pyLookup (checkDatabaseCoverage query dbEntities llm)
          "relationship_count".toList with
  | some _, some _ =>
      match pyLookup (checkDatabaseCoverage query dbEntities llm)
              "has_sufficient_data".toList with
      | some v =>
          if pyTruthy v then
            { status := "error".toList, reportPresent := true, searchRounds := 0 }
          else
            { status := "completed".toList, reportPresent := true,
              searchRounds := 1 }
      | none =>
          { status := "error".toList, reportPresent := true, searchRounds := 0 }
  | _, _ =>
      { status := "error".toList, reportPresent := true, searchRounds := 0 }

/-- Three sample graph-store entities. -/
def sampleDb3 : List DbEntity :=
  [⟨some "OpenAI".toList, none, none, none⟩,
   ⟨some "Anthropic".toList, none, none, none⟩,
   ⟨some "Mistral".toList, none, none, none⟩]

/-! Storage: `Neo4jStorage.store_extraction_results` (neo4j_storage.py 90-200).  The
graph store is modelled as the specification treats it: a key-identity
upsert store whose `MERGE` semantics the Cypher statements of the source
describe (entities keyed by `name`, `RELATES_TO` edges keyed by
`(source, target, type)`, `Query` nodes keyed by `text`, `FOUND` edges keyed
by both endpoints).  Timestamp properties are omitted; the `query_count`
counter, which does change on re-application, is kept. -/
/-- An Entity node's stored properties (timestamps omitted). -/
structure StoredEntity where
  name : Str
  stype : Str
  description : Str
  source_url : Str
  source_title : Str
  importance : Str
deriving DecidableEq, Repr

/-- A RELATES_TO edge's stored properties (timestamps omitted). -/
structure StoredRelProps where
  description : Str
  strength : Str
deriving DecidableEq, Repr

/-- The graph-store state: Query nodes with their `query_count`, Entity
nodes in creation order, FOUND edges, and RELATES_TO edges keyed by
`(source name, target name, type)`. -/
structure GraphState where
  queries : List (Str × Nat)
  entities : List StoredEntity
  found : List (Str × Str)
  rels : List ((Str × Str × Str) × StoredRelProps)
deriving DecidableEq, Repr

/-- Step 1 of `store_extraction_results` (lines 114-125): `MERGE (q:Query
{text: ...})`, creating the node with `query_count = 1` or incrementing the
counter. -/
def mergeQueryNode (g : GraphState) (q : Str) : GraphState :=
  if ∃ p ∈ g.queries, p.1 = q then
    { g with queries := g.queries.map (fun p =>
        if p.1 = q then (p.1, p.2 + 1) else p) }
  else
    { g with queries := g.queries ++ [(q, 1)] }

/-- Step 2 of `store_extraction_results` (lines 128-160) for one entity
record: `MERGE (e:Entity {name})` — `ON CREATE` sets all properties,
`ON MATCH` replaces the description only when the incoming one is strictly
longer — followed by `MERGE (q)-[:FOUND]->(e)`. -/
def upsertEntityNode (g : GraphState) (e : Entity) : GraphState :=
  if ∃ se ∈ g.entities, se.name = e.name then
    { g with entities := g.entities.map (fun se =>
        if se.name = e.name then
          { se with description :=
              if se.description.length < e.description.length
              then e.description else se.description }
        else se) }
  else
    { g with entities := g.entities ++
        [{ name := e.name, stype := e.entityType.getD "未分類".toList,
           description := e.description, source_url := e.source_url,
           source_title := e.source_title,
           importance := e.importance.getD "medium".toList }] }

/-- The FOUND-edge merge after the node merge. -/
def upsertEntity (g : GraphState) (q : Str) (e : Entity) : GraphState :=
  if (q, e.name) ∈ (upsertEntityNode g e).found then upsertEntityNode g e
  else { upsertEntityNode g e with
          found := (upsertEntityNode g e).found ++ [(q, e.name)] }

/-- Key of a relationship record in the store:
`(source, target, rel.get("relation", "相關"))`. -/
def storeRelKey (r : Relationship) : Str × Str × Str :=
  (r.source, r.target, r.relation.getD "相關".toList)

/-- Step 3 of `store_extraction_results` (lines 169-194) for one
relationship record: the two `MATCH`es require both endpoint entities to
exist (otherwise the statement affects nothing); `MERGE` then creates the
keyed edge if absent (`ON MATCH` only touches a timestamp). -/
def upsertRelationship (g : GraphState) (r : Relationship) : GraphState :=
  if (∃ se ∈ g.entities, se.name = r.source) ∧
     (∃ se ∈ g.entities, se.name = r.target) then
    if storeRelKey r ∈ g.rels.map (fun p => p.1) then g
    else { g with rels := g.rels ++
        [(storeRelKey r, ⟨r.description, r.strength.getD "medium".toList⟩)] }
  else g

/-- Embeds `store_extraction_results(query, entities, relationships)`: the query
node merge, then the entity pass, then the relationship pass. -/
def storeExtractionResults (g : GraphState) (q : Str) (es : List Entity)
    (rs : List Relationship) : GraphState :=
  rs.foldl upsertRelationship
    (es.foldl (fun acc e => upsertEntity acc q e) (mergeQueryNode g q))

/-- An entity record is absorbed by a state: its name is stored, every
stored entity of that name already has a description at least as long, and
the FOUND edge from the query is present.  An upsert of an absorbed record
is a no-op. -/
def absorbedE (g : GraphState) (q : Str) (e : Entity) : Prop :=
  (∃ se ∈ g.entities, se.name = e.name) ∧
  (∀ se ∈ g.entities, se.name = e.name →
    e.description.length ≤ se.description.length) ∧
  (q, e.name) ∈ g.found

/-- A relationship record is absorbed: if both endpoints exist, the keyed
edge exists. -/
def absorbedR (g : GraphState) (r : Relationship) : Prop :=
  (∃ se ∈ g.entities, se.name = r.source) →
  (∃ se ∈ g.entities, se.name = r.target) →
  storeRelKey r ∈ g.rels.map (fun p => p.1)

example : normalizeEntityName "OpenAI, Inc.".toList = "openai".toList := by decide

example : normalizeEntityName "openai inc".toList = "openai".toList := by decide

example : normalizeEntityName "OpenAI".toList = "openai".toList := by decide

example : normalizeEntityName "Tobacco".toList = "tobac".toList := by decide

example : normalizeEntityName "Tobacco Co".toList = "tobacco".toList := by decide

/-! C5 helper lemmas: behaviour of the suffix-stripping pass. -/
theorem not_suffix_append_of_ne (s s0 c : Str)
    (h1 : ¬ s <:+ s0)
    (h2 : s.drop (s.length - s0.length) ≠ s0) : ¬ s <:+ (c ++ s0) := by
  intro hs
  rcases Nat.le_total s.length s0.length with hl | hl
  · exact h1 (List.suffix_of_suffix_length_le hs (List.suffix_append c s0) hl)
  · have h3 : s0 <:+ s :=
      List.suffix_of_suffix_length_le (List.suffix_append c s0) hs hl
    obtain ⟨t, ht⟩ := h3
    apply h2
    rw [← ht]
    have hlt : (t ++ s0).length - s0.length = t.length := by
      simp [List.length_append]
    rw [hlt, List.drop_left]

theorem stripOneSuffix_neg (n suf : Str) (h : ¬ suf <:+ n) :
    stripOneSuffix n suf = n := by
  simp [stripOneSuffix, h]

theorem stripOneSuffix_append (c suf : Str) :
    stripOneSuffix (c ++ suf) suf = c := by
  have hlen : (c ++ suf).length - suf.length = c.length := by
    simp [List.length_append]
  rw [stripOneSuffix, if_pos (List.suffix_append c suf), hlen, List.take_left]

/-- With a base string that ends in none of the corporate suffixes, the suffix
pass is the identity. -/
theorem stripFold_no_suffix (base : Str)
    (hbase : ∀ t ∈ orgSuffixes, ¬ t <:+ base) :
    orgSuffixes.foldl stripOneSuffix base = base := by
  simp only [orgSuffixes, List.foldl]
  rw [stripOneSuffix_neg _ _ (hbase _ (by decide)),
      stripOneSuffix_neg _ _ (hbase _ (by decide)),
      stripOneSuffix_neg _ _ (hbase _ (by decide)),
      stripOneSuffix_neg _ _ (hbase _ (by decide)),
      stripOneSuffix_neg _ _ (hbase _ (by decide)),
      stripOneSuffix_neg _ _ (hbase _ (by decide)),
      stripOneSuffix_neg _ _ (hbase _ (by decide))]

/-- Appending one corporate suffix to a base that ends in no corporate suffix
is undone exactly by the suffix pass. -/
theorem stripFold_append_suffix (base suf : Str) (hsuf : suf ∈ orgSuffixes)
    (hbase : ∀ t ∈ orgSuffixes, ¬ t <:+ base) :
    orgSuffixes.foldl stripOneSuffix (base ++ suf) = base := by
  have hno : ∀ t ∈ orgSuffixes, stripOneSuffix base t = base := fun t ht =>
    stripOneSuffix_neg _ _ (hbase t ht)
  simp only [orgSuffixes, List.mem_cons, List.not_mem_nil, or_false] at hsuf
  simp only [orgSuffixes, List.foldl]
  rcases hsuf with rfl | rfl | rfl | rfl | rfl | rfl | rfl
  · rw [stripOneSuffix_append,
        hno _ (by decide), hno _ (by decide), hno _ (by decide),
        hno _ (by decide), hno _ (by decide), hno _ (by decide)]
  · rw [stripOneSuffix_neg _ _ (not_suffix_append_of_ne _ _ _ (by decide) (by decide)),
        stripOneSuffix_append,
        hno _ (by decide), hno _ (by decide), hno _ (by decide),
        hno _ (by decide), hno _ (by decide)]
  · rw [stripOneSuffix_neg _ _ (not_suffix_append_of_ne _ _ _ (by decide) (by decide)),
        stripOneSuffix_neg _ _ (not_suffix_append_of_ne _ _ _ (by decide) (by decide)),
        stripOneSuffix_append,
        hno _ (by decide), hno _ (by decide), hno _ (by decide), hno _ (by decide)]
  · rw [stripOneSuffix_neg _ _ (not_suffix_append_of_ne _ _ _ (by decide) (by decide)),
        stripOneSuffix_neg _ _ (not_suffix_append_of_ne _ _ _ (by decide) (by decide)),
        stripOneSuffix_neg _ _ (not_suffix_append_of_ne _ _ _ (by decide) (by decide)),
        stripOneSuffix_append,
        hno _ (by decide), hno _ (by decide), hno _ (by decide)]
  · rw [stripOneSuffix_neg _ _ (not_suffix_append_of_ne _ _ _ (by decide) (by decide)),
        stripOneSuffix_neg _ _ (not_suffix_append_of_ne _ _ _ (by decide) (by decide)),
        stripOneSuffix_neg _ _ (not_suffix_append_of_ne _ _ _ (by decide) (by decide)),
        stripOneSuffix_neg _ _ (not_suffix_append_of_ne _ _ _ (by decide) (by decide)),
        stripOneSuffix_append,
        hno _ (by decide), hno _ (by decide)]
  · rw [stripOneSuffix_neg _ _ (not_suffix_append_of_ne _ _ _ (by decide) (by decide)),
        stripOneSuffix_neg _ _ (not_suffix_append_of_ne _ _ _ (by decide) (by decide)),
        stripOneSuffix_neg _ _ (not_suffix_append_of_ne _ _ _ (by decide) (by decide)),
        stripOneSuffix_neg _ _ (not_suffix_append_of_ne _ _ _ (by decide) (by decide)),
        stripOneSuffix_neg _ _ (not_suffix_append_of_ne _ _ _ (by decide) (by decide)),
        stripOneSuffix_append,
        hno _ (by decide)]
  · rw [stripOneSuffix_neg _ _ (not_suffix_append_of_ne _ _ _ (by decide) (by decide)),
        stripOneSuffix_neg _ _ (not_suffix_append_of_ne _ _ _ (by decide) (by decide)),
        stripOneSuffix_neg _ _ (not_suffix_append_of_ne _ _ _ (by decide) (by decide)),
        stripOneSuffix_neg _ _ (not_suffix_append_of_ne _ _ _ (by decide) (by decide)),
        stripOneSuffix_neg _ _ (not_suffix_append_of_ne _ _ _ (by decide) (by decide)),
        stripOneSuffix_neg _ _ (not_suffix_append_of_ne _ _ _ (by decide) (by decide)),
        stripOneSuffix_append]

/-- C5 counterexample: the names "Tobacco" and "Tobacco Co" differ only by the
known corporate suffix "co" (their cleaned forms differ exactly by appending
it), yet they do not normalize to the same key: `_normalize_entity_name`
strips the trailing "co" of the bare name "Tobacco" itself, giving "tobac",
while "Tobacco Co" gives "tobacco".  The claimed universal collapse is
therefore false. -/
theorem C5_normalization_collapse_counterexample :
    cleanCore "Tobacco Co".toList = cleanCore "Tobacco".toList ++ "co".toList ∧
    "co".toList ∈ orgSuffixes ∧
    normalizeEntityName "Tobacco".toList ≠ normalizeEntityName "Tobacco Co".toList :=
  ⟨by decide, by decide, by decide⟩

/-- C5 (amended): names whose lower-cased, punctuation- and whitespace-free
forms coincide always normalize to the same key (covering pairs differing only
by case, punctuation or whitespace); appending one known corporate suffix also
preserves the key provided the cleaned base name does not itself end in any of
the listed suffix tokens; in particular "OpenAI, Inc.", "openai inc" and
"OpenAI" all normalize to "openai". -/
theorem C5_normalization_collapse_amended (a b base suf : Str)
    (hsuf : suf ∈ orgSuffixes)
    (hbase : ∀ t ∈ orgSuffixes, ¬ t <:+ base) :
    (cleanCore a = cleanCore b → normalizeEntityName a = normalizeEntityName b) ∧
    (cleanCore a = base → cleanCore b = base ++ suf →
      normalizeEntityName a = normalizeEntityName b) ∧
    (normalizeEntityName "OpenAI, Inc.".toList = "openai".toList ∧
     normalizeEntityName "openai inc".toList = "openai".toList ∧
     normalizeEntityName "OpenAI".toList = "openai".toList) := by
  refine ⟨fun h => by unfold normalizeEntityName; rw [h],
          fun ha hb => ?_, by decide, by decide, by decide⟩
  unfold normalizeEntityName
  rw [ha, hb, stripFold_no_suffix base hbase,
      stripFold_append_suffix base suf hsuf hbase]

/-- C5 witness: the amended theorem applied to the concrete pair "OpenAI" and
"OpenAI, Inc." with base "openai" and suffix "inc". -/
theorem C5_normalization_collapse_witness :
    ("inc".toList ∈ orgSuffixes ∧ (∀ t ∈ orgSuffixes, ¬ t <:+ "openai".toList)) ∧
    normalizeEntityName "OpenAI".toList = normalizeEntityName "OpenAI, Inc.".toList :=
  ⟨⟨by decide, by decide⟩,
   (C5_normalization_collapse_amended "OpenAI".toList "OpenAI, Inc.".toList
      "openai".toList "inc".toList (by decide) (by decide)).2.1 (by decide) (by decide)⟩

/-! Association-list lemmas for the entity map. -/
theorem assocFind_update_ne (m : List (Str × Entity)) (k k' : Str)
    (f : Entity → Entity) (h : k' ≠ k) :
    assocFind (assocUpdate m k' f) k = assocFind m k := by
  induction m with
  | nil => rfl
  | cons p rest ih =>
    by_cases hp : p.1 = k'
    · simp [assocUpdate, assocFind, hp, h]
    · simp only [assocUpdate, assocFind, hp, if_false]
      by_cases hk : p.1 = k <;> simp [assocFind, hk, ih]

theorem assocFind_update_eq (m : List (Str × Entity)) (k : Str)
    (f : Entity → Entity) :
    assocFind (assocUpdate m k f) k = (assocFind m k).map f := by
  induction m with
  | nil => rfl
  | cons p rest ih =>
    by_cases hp : p.1 = k
    · simp [assocUpdate, assocFind, hp]
    · simp [assocUpdate, assocFind, hp, ih]

theorem assocFind_append_ne (m : List (Str × Entity)) (k k' : Str) (x : Entity)
    (h : k' ≠ k) :
    assocFind (m ++ [(k', x)]) k = assocFind m k := by
  induction m with
  | nil =>
    show assocFind [(k', x)] k = assocFind [] k
    simp only [assocFind, if_neg h]
  | cons p rest ih =>
    show assocFind (p :: (rest ++ [(k', x)])) k = assocFind (p :: rest) k
    by_cases hk : p.1 = k <;> simp only [assocFind, hk, if_true, if_false, ih]

theorem assocFind_append_self (m : List (Str × Entity)) (k : Str) (x : Entity)
    (h : assocFind m k = none) :
    assocFind (m ++ [(k, x)]) k = some x := by
  induction m with
  | nil =>
    show assocFind [(k, x)] k = some x
    exact if_pos rfl
  | cons p rest ih =>
    by_cases hk : p.1 = k
    · rw [assocFind, if_pos hk] at h
      exact absurd h (by simp)
    · rw [assocFind, if_neg hk] at h
      show assocFind (p :: (rest ++ [(k, x)])) k = some x
      rw [assocFind, if_neg hk]
      exact ih h

theorem assocFind_mem (m : List (Str × Entity)) (k : Str) (v : Entity)
    (h : assocFind m k = some v) : v ∈ m.map (fun p => p.2) := by
  induction m with
  | nil => exact Option.noConfusion h
  | cons p rest ih =>
    by_cases hk : p.1 = k
    · rw [assocFind, if_pos hk] at h
      simp only [List.map_cons, List.mem_cons]
      exact Or.inl (Option.some.inj h).symm
    · rw [assocFind, if_neg hk] at h
      simp only [List.map_cons, List.mem_cons]
      exact Or.inr (ih h)

/-- Characterization of the dedup fold: the binding of key `k` after
processing `es` on top of map `m` is the merge of `m`'s prior binding (when
present) with all of `es`'s valid records of key `k`, in order. -/
theorem dedup_fold_characterization (k : Str) (es : List Entity) :
    ∀ m : List (Str × Entity),
    assocFind (es.foldl dedupStep m) k =
      match assocFind m k with
      | some ex => some ((entityGroup es k).foldl mergeInto ex)
      | none =>
        match entityGroup es k with
        | [] => none
        | h :: t => some (t.foldl mergeInto (initMerged h (entityKey h))) := by
  induction es with
  | nil =>
    intro m
    cases hm : assocFind m k <;> simp [entityGroup, hm]
  | cons e es ih =>
    intro m
    have hfold : (e :: es).foldl dedupStep m = es.foldl dedupStep (dedupStep m e) := rfl
    by_cases hv : (pyStrip e.name).length < 2
    · have hstep : dedupStep m e = m := by simp [dedupStep, hv]
      have hgrp : entityGroup (e :: es) k = entityGroup es k := by
        simp only [entityGroup, List.filter_cons]
        have : ¬ (2 ≤ (pyStrip e.name).length ∧ entityKey e = k) := by
          intro hc; omega
        simp [this]
      rw [hfold, hstep, hgrp, ih m]
    · by_cases hk : entityKey e = k
      · have hgrp : entityGroup (e :: es) k = e :: entityGroup es k := by
          simp only [entityGroup, List.filter_cons]
          have : (2 ≤ (pyStrip e.name).length ∧ entityKey e = k) := ⟨by omega, hk⟩
          simp [this]
        cases hm : assocFind m k with
        | some ex =>
          have hstep : dedupStep m e = assocUpdate m k (fun x => mergeInto x e) := by
            simp [dedupStep, hv, hk, hm]
          rw [hfold, hstep, ih]
          rw [assocFind_update_eq m k, hm]
          simp [hgrp]
        | none =>
          have hstep : dedupStep m e = m ++ [(k, initMerged e k)] := by
            simp [dedupStep, hv, hk, hm]
          rw [hfold, hstep, ih]
          rw [assocFind_append_self m k _ hm]
          simp [hgrp, hk]
      · have hgrp : entityGroup (e :: es) k = entityGroup es k := by
          simp only [entityGroup, List.filter_cons]
          have : ¬ (2 ≤ (pyStrip e.name).length ∧ entityKey e = k) := by
            intro hc; exact hk hc.2
          simp [this]
        have hfind : assocFind (dedupStep m e) k = assocFind m k := by
          simp only [dedupStep, hv, if_false]
          cases hm : assocFind m (entityKey e) with
          | some ex => simp [hm, assocFind_update_ne m k (entityKey e) _ hk]
          | none => simp [hm, assocFind_append_ne m k (entityKey e) _ hk]
        rw [hfold, ih, hfind, hgrp]

/-! Properties of the group merge. -/
theorem mergeInto_sources (ex e : Entity) (l : List SourceRef)
    (h : ex.sources = some l) :
    (mergeInto ex e).sources = some (l ++ [mkSourceRef e]) := by
  simp [mergeInto, h]

theorem foldl_mergeInto_sources (t : List Entity) :
    ∀ (ex : Entity) (l : List SourceRef), ex.sources = some l →
    (t.foldl mergeInto ex).sources = some (l ++ t.map mkSourceRef) := by
  induction t with
  | nil => intro ex l h; simpa using h
  | cons e t ih =>
    intro ex l h
    have := ih (mergeInto ex e) (l ++ [mkSourceRef e]) (mergeInto_sources ex e l h)
    simpa using this

theorem mergeInto_keyFacts (ex e : Entity) :
    (mergeInto ex e).key_facts.getD [] =
      ex.key_facts.getD [] ++ e.key_facts.getD [] := by
  cases hk : e.key_facts <;> simp [mergeInto, hk]

theorem foldl_mergeInto_keyFacts (t : List Entity) :
    ∀ ex : Entity, (t.foldl mergeInto ex).key_facts.getD [] =
      ex.key_facts.getD [] ++ (t.map (fun e => e.key_facts.getD [])).flatten := by
  induction t with
  | nil => intro ex; simp
  | cons e t ih =>
    intro ex
    have := ih (mergeInto ex e)
    rw [List.foldl_cons, this, mergeInto_keyFacts]
    simp

theorem mergeInto_importance (ex e : Entity) :
    (mergeInto ex e).importance =
      if e.importance = some "high".toList then some "high".toList
      else ex.importance := by
  simp [mergeInto]

theorem foldl_mergeInto_importance (t : List Entity) :
    ∀ ex : Entity, (t.foldl mergeInto ex).importance =
      if ∃ e ∈ t, e.importance = some "high".toList then some "high".toList
      else ex.importance := by
  induction t with
  | nil => intro ex; simp
  | cons e t ih =>
    intro ex
    rw [List.foldl_cons, ih (mergeInto ex e), mergeInto_importance]
    by_cases he : e.importance = some "high".toList
    · have hex : ∃ x ∈ e :: t, x.importance = some "high".toList :=
        ⟨e, List.mem_cons_self e t, he⟩
      by_cases ht : ∃ x ∈ t, x.importance = some "high".toList <;>
        simp [he, ht, hex]
    · by_cases ht : ∃ x ∈ t, x.importance = some "high".toList
      · obtain ⟨x, hx, hxi⟩ := ht
        rw [if_pos ⟨x, hx, hxi⟩, if_pos ⟨x, List.mem_cons_of_mem e hx, hxi⟩]
      · have hor : ¬ ∃ x ∈ e :: t, x.importance = some "high".toList := by
          rintro ⟨x, hx, hxi⟩
          rcases List.mem_cons.mp hx with rfl | hx'
          · exact he hxi
          · exact ht ⟨x, hx', hxi⟩
        rw [if_neg ht, if_neg he, if_neg hor]

theorem mergeInto_description (ex e : Entity) :
    ((mergeInto ex e).description = ex.description ∨
     (mergeInto ex e).description = e.description) ∧
    ex.description.length ≤ (mergeInto ex e).description.length ∧
    e.description.length ≤ (mergeInto ex e).description.length := by
  by_cases h : ex.description.length < e.description.length <;>
    simp [mergeInto, h] <;> omega

theorem foldl_mergeInto_description (t : List Entity) :
    ∀ ex : Entity,
      ((t.foldl mergeInto ex).description = ex.description ∨
       (t.foldl mergeInto ex).description ∈ t.map (fun e => e.description)) ∧
      ex.description.length ≤ (t.foldl mergeInto ex).description.length ∧
      ∀ e ∈ t, e.description.length ≤ (t.foldl mergeInto ex).description.length := by
  induction t with
  | nil => intro ex; simp
  | cons e t ih =>
    intro ex
    obtain ⟨hd, hlen, hall⟩ := ih (mergeInto ex e)
    obtain ⟨hd1, hlen1, hlen2⟩ := mergeInto_description ex e
    rw [List.foldl_cons]
    refine ⟨?_, Nat.le_trans hlen1 hlen, ?_⟩
    · rcases hd with hcase | hcase
      · rcases hd1 with h1 | h1
        · exact Or.inl (hcase.trans h1)
        · exact Or.inr (by simp [hcase, h1])
      · exact Or.inr (by simp; right; simpa using hcase)
    · intro x hx
      rcases List.mem_cons.mp hx with rfl | hx'
      · exact Nat.le_trans hlen2 hlen
      · exact hall x hx'

example :
    advancedDeduplicateEntities [sampleEntityLow, sampleEntityMed] [] =
      [sampleMergedEntity] := by decide

/-- C3 counterexample: merging the group {"Acme" (low), "acme" (medium)}
keeps importance "low", although the highest importance seen in the group is
"medium": `_advanced_deduplicate_entities` promotes only to "high"
(agent.py 669-671), so "medium" never dominates "low" as the claim states. -/
theorem C3_entity_merge_counterexample :
    (advancedDeduplicateEntities [sampleEntityLow, sampleEntityMed] []).map
        (fun e => e.importance) = [some "low".toList] ∧
    (∃ e ∈ [sampleEntityLow, sampleEntityMed],
        e.importance = some "medium".toList) ∧
    entityKey sampleEntityLow = entityKey sampleEntityMed ∧
    (some "low".toList : Option Str) ≠ some "medium".toList := by
  refine ⟨by decide, ⟨sampleEntityMed, by decide, by decide⟩, by decide, by decide⟩

/-- C3 (amended): deduplication groups the valid raw records (stripped name
of length at least 2) by normalized key; every produced record is in the
output of `_advanced_deduplicate_entities` and, for its group `h :: t` (in
input order): `sources` holds exactly one `{title, url}` entry per
contributing record in order; `key_facts` is the concatenation of the group's
`key_facts`; `importance` is "high" if any record of the group is "high" and
otherwise the first record's importance unchanged (in particular "medium"
does not override "low"); and the description is one of the group's
descriptions of maximal length. -/
theorem C3_entity_merge_amended (entities : List Entity) (query k : Str)
    (ent : Entity)
    (hfind : assocFind (entities.foldl dedupStep []) k = some ent) :
    ent ∈ advancedDeduplicateEntities entities query ∧
    ∃ h t, entityGroup entities k = h :: t ∧
      ent.sources = some ((h :: t).map mkSourceRef) ∧
      ent.key_facts.getD [] =
        ((h :: t).map (fun e => e.key_facts.getD [])).flatten ∧
      ent.importance =
        (if ∃ e ∈ h :: t, e.importance = some "high".toList
         then some "high".toList else h.importance) ∧
      (∀ e ∈ h :: t, e.description.length ≤ ent.description.length) ∧
      ent.description ∈ (h :: t).map (fun e => e.description) := by
  have hchar := dedup_fold_characterization k entities []
  rw [hfind] at hchar
  simp only [assocFind] at hchar
  constructor
  · exact assocFind_mem _ _ _ hfind
  · cases hg : entityGroup entities k with
    | nil => rw [hg] at hchar; exact Option.noConfusion hchar.symm
    | cons h t =>
      rw [hg] at hchar
      have hent : ent = t.foldl mergeInto (initMerged h (entityKey h)) := by
        have h2 : some ent = some (t.foldl mergeInto (initMerged h (entityKey h))) :=
          hchar
        exact Option.some.inj h2
      refine ⟨h, t, rfl, ?_, ?_, ?_, ?_, ?_⟩
      · rw [hent, foldl_mergeInto_sources t (initMerged h (entityKey h))
            [mkSourceRef h] (by simp [initMerged])]
        simp
      · rw [hent, foldl_mergeInto_keyFacts]
        simp [initMerged]
      · rw [hent, foldl_mergeInto_importance]
        by_cases ht : ∃ x ∈ t, x.importance = some "high".toList
        · obtain ⟨x, hx, hxi⟩ := ht
          rw [if_pos ⟨x, hx, hxi⟩, if_pos ⟨x, List.mem_cons_of_mem h hx, hxi⟩]
        · rw [if_neg ht]
          by_cases hh : h.importance = some "high".toList
          · rw [if_pos ⟨h, List.mem_cons_self h t, hh⟩, initMerged, hh]
          · have hor : ¬ ∃ x ∈ h :: t, x.importance = some "high".toList := by
              rintro ⟨x, hx, hxi⟩
              rcases List.mem_cons.mp hx with rfl | hx'
              · exact hh hxi
              · exact ht ⟨x, hx', hxi⟩
            rw [if_neg hor, initMerged]
      · intro e he
        obtain ⟨_, hlen, hall⟩ :=
          foldl_mergeInto_description t (initMerged h (entityKey h))
        rcases List.mem_cons.mp he with rfl | he'
        · rw [hent]
          simpa [initMerged] using hlen
        · rw [hent]
          exact hall e he'
      · obtain ⟨hd, _, _⟩ :=
          foldl_mergeInto_description t (initMerged h (entityKey h))
        rcases hd with hcase | hcase
        · rw [hent, List.map_cons, hcase]
          have hini : (initMerged h (entityKey h)).description = h.description := rfl
          rw [hini]
          exact List.mem_cons_self _ _
        · rw [hent, List.map_cons]
          exact List.mem_cons_of_mem _ hcase

/-- C3 witness: the amended theorem applied to the concrete two-record group
{sampleEntityLow, sampleEntityMed} under key "acme". -/
theorem C3_entity_merge_witness :
    assocFind ([sampleEntityLow, sampleEntityMed].foldl dedupStep [])
        "acme".toList = some sampleMergedEntity ∧
    sampleMergedEntity ∈
      advancedDeduplicateEntities [sampleEntityLow, sampleEntityMed] [] :=
  ⟨by decide,
   (C3_entity_merge_amended [sampleEntityLow, sampleEntityMed] [] "acme".toList
      sampleMergedEntity (by decide)).1⟩

/-- C4 counterexample: `(A, 領導, B)` and `(B, reverse(領導), A)` = `(B,
被領導, A)`, submitted in that order, are BOTH kept:
`_reverse_relation` is not an involution, so the second record's mirror key
`(A, reverse(被領導), B) = (A, 被領導, B)` differs from the stored forward
key `(A, 領導, B)`.  The claim promises exactly one edge in either order. -/
theorem C4_relationship_dedup_counterexample :
    relLabel sampleRelLed = reverseRelation (relLabel sampleRelLead) ∧
    normalizeEntityName sampleRelLed.source =
      normalizeEntityName sampleRelLead.target ∧
    normalizeEntityName sampleRelLed.target =
      normalizeEntityName sampleRelLead.source ∧
    (advancedDeduplicateRelationships [sampleRelLead, sampleRelLed]).length = 2 ∧
    (2 : Nat) ≠ 1 := by
  refine ⟨by decide, by decide, by decide, by decide, by decide⟩

/-- C4 (amended): for a pair of records with swapped normalized endpoints
(both nonempty) whose relation labels are mirror images under
`_reverse_relation`, exactly one edge is kept when the reversed record is
submitted first; when the forward record comes first this holds only if
`reverse(reverse(rel)) = rel` (true for every relation outside the reverse
map, such as "competes_with", hence in either order there).  Records whose
normalized source or target is empty are always rejected and leave the
output unchanged. -/
theorem C4_relationship_dedup_amended (r1 r2 : Relationship)
    (h1 : normalizeEntityName r1.source ≠ [])
    (h2 : normalizeEntityName r1.target ≠ [])
    (hs : normalizeEntityName r2.source = normalizeEntityName r1.target)
    (ht : normalizeEntityName r2.target = normalizeEntityName r1.source)
    (hr : relLabel r2 = reverseRelation (relLabel r1)) :
    advancedDeduplicateRelationships [r2, r1] = [r2] ∧
    (reverseRelation (reverseRelation (relLabel r1)) = relLabel r1 →
      advancedDeduplicateRelationships [r1, r2] = [r1]) ∧
    (∀ (pre post : List Relationship) (r : Relationship),
      normalizeEntityName r.source = [] ∨ normalizeEntityName r.target = [] →
      advancedDeduplicateRelationships (pre ++ r :: post) =
        advancedDeduplicateRelationships (pre ++ post)) := by
  have hkeyA : relKeyRev r1 = relKeyFwd r2 := by
    simp only [relKeyRev, relKeyFwd, hs, ht, hr]
  refine ⟨?_, ?_, ?_⟩
  · show ([r2, r1].foldl relDedupStep ([], [])).2 = [r2]
    have hcond2 : relKeyFwd r2 ∉ (([], []) :
          List (Str × Str × Str) × List Relationship).1 ∧
        relKeyRev r2 ∉ (([], []) :
          List (Str × Str × Str) × List Relationship).1 ∧
        normalizeEntityName r2.source ≠ [] ∧
        normalizeEntityName r2.target ≠ [] := by
      refine ⟨List.not_mem_nil _, List.not_mem_nil _, ?_, ?_⟩
      · rw [hs]; exact h2
      · rw [ht]; exact h1
    have hstep2 : relDedupStep ([], []) r2 = ([relKeyFwd r2], [r2]) := by
      rw [relDedupStep, if_pos hcond2]
      rfl
    have hncond : ¬ (relKeyFwd r1 ∉ ([relKeyFwd r2], [r2]).1 ∧
        relKeyRev r1 ∉ ([relKeyFwd r2], [r2]).1 ∧
        normalizeEntityName r1.source ≠ [] ∧
        normalizeEntityName r1.target ≠ []) := by
      intro hcond
      exact hcond.2.1 (by rw [hkeyA]; exact List.mem_singleton.mpr rfl)
    have hstep1 : relDedupStep ([relKeyFwd r2], [r2]) r1 =
        ([relKeyFwd r2], [r2]) := by
      rw [relDedupStep, if_neg hncond]
    rw [List.foldl_cons, List.foldl_cons, List.foldl_nil, hstep2, hstep1]
  · intro hinv
    show ([r1, r2].foldl relDedupStep ([], [])).2 = [r1]
    have hcond1 : relKeyFwd r1 ∉ (([], []) :
          List (Str × Str × Str) × List Relationship).1 ∧
        relKeyRev r1 ∉ (([], []) :
          List (Str × Str × Str) × List Relationship).1 ∧
        normalizeEntityName r1.source ≠ [] ∧
        normalizeEntityName r1.target ≠ [] :=
      ⟨List.not_mem_nil _, List.not_mem_nil _, h1, h2⟩
    have hstep1 : relDedupStep ([], []) r1 = ([relKeyFwd r1], [r1]) := by
      rw [relDedupStep, if_pos hcond1]
      rfl
    have hkeyB : relKeyRev r2 = relKeyFwd r1 := by
      simp only [relKeyRev, relKeyFwd, hs, ht, hr, hinv]
    have hncond : ¬ (relKeyFwd r2 ∉ ([relKeyFwd r1], [r1]).1 ∧
        relKeyRev r2 ∉ ([relKeyFwd r1], [r1]).1 ∧
        normalizeEntityName r2.source ≠ [] ∧
        normalizeEntityName r2.target ≠ []) := by
      intro hcond
      exact hcond.2.1 (by rw [hkeyB]; exact List.mem_singleton.mpr rfl)
    have hstep2 : relDedupStep ([relKeyFwd r1], [r1]) r2 =
        ([relKeyFwd r1], [r1]) := by
      rw [relDedupStep, if_neg hncond]
    rw [List.foldl_cons, List.foldl_cons, List.foldl_nil, hstep1, hstep2]
  · intro pre post r hempty
    have hskip : ∀ acc : List (Str × Str × Str) × List Relationship,
        relDedupStep acc r = acc := by
      intro acc
      rw [relDedupStep, if_neg]
      intro hcond
      rcases hempty with h | h
      · exact hcond.2.2.1 h
      · exact hcond.2.2.2 h
    show ((pre ++ r :: post).foldl relDedupStep ([], [])).2 =
      ((pre ++ post).foldl relDedupStep ([], [])).2
    rw [List.foldl_append, List.foldl_append, List.foldl_cons,
        hskip (pre.foldl relDedupStep ([], []))]

/-- C4 witness: the amended theorem applied to the symmetric pair
`(A, competes_with, B)` and `(B, competes_with, A)`, for which
`_reverse_relation` is the identity, so one edge survives in either order. -/
theorem C4_relationship_dedup_witness :
    advancedDeduplicateRelationships
      [⟨"Beta".toList, "Alpha".toList, some "competes_with".toList, [], none⟩,
       ⟨"Alpha".toList, "Beta".toList, some "competes_with".toList, [], none⟩] =
      [⟨"Beta".toList, "Alpha".toList, some "competes_with".toList, [], none⟩] ∧
    advancedDeduplicateRelationships
      [⟨"Alpha".toList, "Beta".toList, some "competes_with".toList, [], none⟩,
       ⟨"Beta".toList, "Alpha".toList, some "competes_with".toList, [], none⟩] =
      [⟨"Alpha".toList, "Beta".toList, some "competes_with".toList, [], none⟩] :=
  ⟨(C4_relationship_dedup_amended
      ⟨"Alpha".toList, "Beta".toList, some "competes_with".toList, [], none⟩
      ⟨"Beta".toList, "Alpha".toList, some "competes_with".toList, [], none⟩
      (by decide) (by decide) (by decide) (by decide) (by decide)).1,
   (C4_relationship_dedup_amended
      ⟨"Alpha".toList, "Beta".toList, some "competes_with".toList, [], none⟩
      ⟨"Beta".toList, "Alpha".toList, some "competes_with".toList, [], none⟩
      (by decide) (by decide) (by decide) (by decide) (by decide)).2.1 (by decide)⟩

theorem scoreEntity_eq_spec (query : Str) (relationships : List Relationship)
    (e : Entity) :
    scoreEntity (pyLower query) (mentionCount relationships e.name) e =
      specEntityScore query relationships e := by
  unfold scoreEntity specEntityScore
  rw [Nat.mul_comm (mentionCount relationships e.name) 2]
  omega

theorem insertByScoreDesc_perm (x : Entity) (l : List Entity) :
    (insertByScoreDesc x l).Perm (x :: l) := by
  induction l with
  | nil => exact List.Perm.refl _
  | cons y ys ih =>
    by_cases h : y.relevance_score ≤ x.relevance_score
    · rw [insertByScoreDesc, if_pos h]
    · rw [insertByScoreDesc, if_neg h]
      exact (ih.cons y).trans (List.Perm.swap x y ys)

theorem stableSortByScoreDesc_perm (l : List Entity) :
    (stableSortByScoreDesc l).Perm l := by
  induction l with
  | nil => exact List.Perm.refl _
  | cons x xs ih =>
    exact (insertByScoreDesc_perm x (stableSortByScoreDesc xs)).trans (ih.cons x)

theorem insertByScoreDesc_mem (x z : Entity) (l : List Entity) :
    z ∈ insertByScoreDesc x l ↔ z = x ∨ z ∈ l := by
  rw [(insertByScoreDesc_perm x l).mem_iff, List.mem_cons]

theorem insertByScoreDesc_pairwise (x : Entity) (l : List Entity)
    (h : l.Pairwise (fun a b => b.relevance_score ≤ a.relevance_score)) :
    (insertByScoreDesc x l).Pairwise
      (fun a b => b.relevance_score ≤ a.relevance_score) := by
  induction l with
  | nil => simp [insertByScoreDesc]
  | cons y ys ih =>
    rw [List.pairwise_cons] at h
    obtain ⟨hy, hys⟩ := h
    by_cases hc : y.relevance_score ≤ x.relevance_score
    · rw [insertByScoreDesc, if_pos hc, List.pairwise_cons]
      refine ⟨?_, List.pairwise_cons.mpr ⟨hy, hys⟩⟩
      intro z hz
      rcases List.mem_cons.mp hz with rfl | hz'
      · exact hc
      · exact Nat.le_trans (hy z hz') hc
    · rw [insertByScoreDesc, if_neg hc, List.pairwise_cons]
      refine ⟨?_, ih hys⟩
      intro z hz
      rcases (insertByScoreDesc_mem x z ys).mp hz with rfl | hz'
      · exact Nat.le_of_lt (Nat.lt_of_not_le hc)
      · exact hy z hz'

theorem stableSortByScoreDesc_pairwise (l : List Entity) :
    (stableSortByScoreDesc l).Pairwise
      (fun a b => b.relevance_score ≤ a.relevance_score) := by
  induction l with
  | nil => simp [stableSortByScoreDesc]
  | cons x xs ih => exact insertByScoreDesc_pairwise x _ ih

theorem insertByScoreDesc_filter_score (x : Entity) (l : List Entity) (n : Nat) :
    (insertByScoreDesc x l).filter (fun e => decide (e.relevance_score = n)) =
      if x.relevance_score = n
      then x :: l.filter (fun e => decide (e.relevance_score = n))
      else l.filter (fun e => decide (e.relevance_score = n)) := by
  induction l with
  | nil =>
    by_cases hx : x.relevance_score = n <;>
      simp [insertByScoreDesc, List.filter, hx]
  | cons y ys ih =>
    by_cases hc : y.relevance_score ≤ x.relevance_score
    · rw [insertByScoreDesc, if_pos hc]
      by_cases hx : x.relevance_score = n <;>
        simp [List.filter_cons, hx]
    · rw [insertByScoreDesc, if_neg hc]
      by_cases hx : x.relevance_score = n
      · have hy : ¬ y.relevance_score = n := by
          intro hyn
          exact hc (by omega)
        simp [List.filter_cons, hx, hy, ih]
      · by_cases hy : y.relevance_score = n <;>
          simp [List.filter_cons, hx, hy, ih]

theorem stableSortByScoreDesc_filter_score (l : List Entity) (n : Nat) :
    (stableSortByScoreDesc l).filter (fun e => decide (e.relevance_score = n)) =
      l.filter (fun e => decide (e.relevance_score = n)) := by
  induction l with
  | nil => rfl
  | cons x xs ih =>
    show (insertByScoreDesc x (stableSortByScoreDesc xs)).filter _ = _
    rw [insertByScoreDesc_filter_score]
    by_cases hx : x.relevance_score = n <;>
      simp [List.filter_cons, hx, ih]

/-- C6 (confirmed): `_score_and_rank_entities` assigns every entity exactly
the claimed eight-term sum as `relevance_score`, and returns a permutation of
the scored input that is sorted descending by that score; elements of equal
score keep their prior relative order (the sorted list's sublist at every
fixed score equals the scored input's sublist at that score). -/
theorem C6_score_and_rank_entities (entities : List Entity)
    (relationships : List Relationship) (query : Str) :
    (∀ e : Entity,
      scoreEntity (pyLower query) (mentionCount relationships e.name) e =
        specEntityScore query relationships e) ∧
    (scoreAndRankEntities entities relationships query).Perm
      (entities.map (fun e =>
        { e with relevance_score := specEntityScore query relationships e })) ∧
    (scoreAndRankEntities entities relationships query).Pairwise
      (fun a b => b.relevance_score ≤ a.relevance_score) ∧
    ∀ n : Nat,
      (scoreAndRankEntities entities relationships query).filter
          (fun e => decide (e.relevance_score = n)) =
        (entities.map (fun e =>
          { e with relevance_score := specEntityScore query relationships e })).filter
          (fun e => decide (e.relevance_score = n)) := by
  have hmap : entities.map (fun e =>
      { e with relevance_score :=
          scoreEntity (pyLower query) (mentionCount relationships e.name) e }) =
      entities.map (fun e =>
        { e with relevance_score := specEntityScore query relationships e }) := by
    apply List.map_congr_left
    intro e _
    rw [scoreEntity_eq_spec]
  refine ⟨fun e => scoreEntity_eq_spec query relationships e, ?_, ?_, ?_⟩
  · rw [scoreAndRankEntities, hmap]
    exact stableSortByScoreDesc_perm _
  · exact stableSortByScoreDesc_pairwise _
  · intro n
    rw [scoreAndRankEntities, hmap, stableSortByScoreDesc_filter_score]

/-- C7 (confirmed): the response parser is total — for every decode oracle
and every input it returns either a decoded-and-defaulted JSON object
(obtained from decoding the extracted brace span of the fence-stripped text)
or the explicit failure value `none`, never an exception; and in the basic
extraction pass a chunk whose response fails to parse contributes exactly
zero entities and zero relationships: dropping its `none` from the chunk
results leaves the accumulated lists unchanged. -/
theorem C7_parser_totality_and_zero_contribution :
    (∀ (decode : Str → Option Json) (text title url : Str),
      parseJsonResponse decode text title url = none ∨
      ∃ fields fields2,
        decode ((extractBraceSpan (stripCodeFences text)).getD
          (stripCodeFences text)) = some (.obj fields) ∧
        applyParsedDefaults title url fields = some fields2 ∧
        parseJsonResponse decode text title url = some (.obj fields2)) ∧
    (∀ (contrib : Json → List Json × List Json)
       (pre post : List (Option Json)),
      basicPassAccumulate contrib (pre ++ none :: post) =
        basicPassAccumulate contrib (pre ++ post)) := by
  constructor
  · intro decode text title url
    by_cases ht : text.isEmpty
    · exact Or.inl (by simp [parseJsonResponse, ht])
    · cases hd : decode ((extractBraceSpan (stripCodeFences text)).getD
          (stripCodeFences text)) with
      | none => exact Or.inl (by simp [parseJsonResponse, ht, hd])
      | some j =>
        cases j with
        | obj fields =>
            cases hp : applyParsedDefaults title url fields with
            | none => exact Or.inl (by simp [parseJsonResponse, ht, hd, hp])
            | some f2 =>
                exact Or.inr ⟨fields, f2, rfl, hp,
                  by simp [parseJsonResponse, ht, hd, hp]⟩
        | null => exact Or.inl (by simp [parseJsonResponse, ht, hd])
        | bool b => exact Or.inl (by simp [parseJsonResponse, ht, hd])
        | num n => exact Or.inl (by simp [parseJsonResponse, ht, hd])
        | str s => exact Or.inl (by simp [parseJsonResponse, ht, hd])
        | arr l => exact Or.inl (by simp [parseJsonResponse, ht, hd])
  · intro contrib pre post
    rw [basicPassAccumulate, basicPassAccumulate,
        List.foldl_append, List.foldl_append, List.foldl_cons]

example :
    splitIntoChunks "abcdefgh.ij klmnop.qrstuvwxyz012345".toList 10 3 =
      some ["abcdefgh.".toList, "gh.ij klmn".toList, "lmnop.qrst".toList,
            "rstuvwxyz0".toList, "yz012345".toList, "5".toList] := by decide

example :
    splitIntoChunks "aaaa.bbbb.cccc.dddd.eeee".toList 10 3 =
      some ["aaaa.bbbb.".toList, "bb.cccc.dd".toList, ".dddd.eeee".toList,
            "eee".toList] := by decide

example : splitIntoChunks "short".toList 10 3 = some ["short".toList] := by decide

example : splitIntoChunks [] 10 3 = some [[]] := by decide

/-! C8 and C10 lemmas. -/
theorem sliceChunk_window_ne_nil (text : Str) (cs start : Nat)
    (hst : start < text.length) (hcs : 0 < cs) :
    sliceChunk text start (start + cs) ≠ [] := by
  apply List.ne_nil_of_length_pos
  simp only [sliceChunk, List.length_take, List.length_drop,
    Nat.add_sub_cancel_left]
  omega

theorem adjustChunk_fst_ne_nil (text : Str) (cs start : Nat)
    (hst : start < text.length) (hcs : 0 < cs) :
    (adjustChunk text cs start).1 ≠ [] := by
  have hbase := sliceChunk_window_ne_nil text cs start hst hcs
  rw [adjustChunk]
  split
  · split
    · split
      · apply List.ne_nil_of_length_pos
        simp only [List.length_take]
        have := List.length_pos.mpr hbase
        omega
      · exact hbase
    · exact hbase
  · exact hbase

theorem adjustChunk_advances (text : Str) (cs ov start : Nat)
    (h : 10 * ov < 7 * cs) :
    7 * cs < 10 * ((adjustChunk text cs start).2 - start) ∧
    start < (adjustChunk text cs start).2 - ov := by
  rw [adjustChunk]
  split
  · split
    · split
      · simp only
        omega
      · simp only
        omega
    · simp only
      omega
  · simp only
    omega

theorem splitLoop_isSome (text : Str) (cs ov : Nat) (h : 10 * ov < 7 * cs) :
    ∀ fuel start : Nat, text.length - start < fuel →
    (splitLoop text cs ov fuel start).isSome := by
  intro fuel
  induction fuel with
  | zero => intro start h2; omega
  | succ f ih =>
    intro start h2
    rw [splitLoop]
    by_cases hst : start < text.length
    · rw [if_pos hst]
      have hadv := (adjustChunk_advances text cs ov start h).2
      have hrec := ih ((adjustChunk text cs start).2 - ov) (by omega)
      cases hr : splitLoop text cs ov f ((adjustChunk text cs start).2 - ov) with
      | none => rw [hr] at hrec; exact absurd hrec (by simp)
      | some rest => simp [hr]
    · rw [if_neg hst]; rfl

theorem splitLoop_chunks_ne_nil (text : Str) (cs ov : Nat) (hcs : 0 < cs) :
    ∀ (fuel start : Nat) (chunks : List Str),
    splitLoop text cs ov fuel start = some chunks → ∀ c ∈ chunks, c ≠ [] := by
  intro fuel
  induction fuel with
  | zero => intro start chunks hh; exact absurd hh (by rw [splitLoop]; simp)
  | succ f ih =>
    intro start chunks hh c hc
    rw [splitLoop] at hh
    by_cases hst : start < text.length
    · rw [if_pos hst] at hh
      cases hr : splitLoop text cs ov f ((adjustChunk text cs start).2 - ov) with
      | none => rw [hr] at hh; exact Option.noConfusion hh
      | some rest =>
        rw [hr] at hh
        have hchunks : chunks = (adjustChunk text cs start).1 :: rest :=
          (Option.some.inj hh).symm
        rw [hchunks] at hc
        rcases List.mem_cons.mp hc with rfl | hc'
        · exact adjustChunk_fst_ne_nil text cs start hst hcs
        · exact ih ((adjustChunk text cs start).2 - ov) rest hr c hc'
    · rw [if_neg hst] at hh
      have : chunks = [] := (Option.some.inj hh).symm
      rw [this] at hc
      exact absurd hc (List.not_mem_nil c)

/-- C8 counterexample: the empty cleaned text (reachable, since
`_smart_clean_text` drops every paragraph of at most 50 characters) is at
most the chunk size, so `_split_into_chunks` returns `[""]`, a list whose
single chunk is empty, contradicting "no chunk in the returned list is
empty" for every input. -/
theorem C8_chunker_counterexample :
    splitIntoChunks [] 4000 500 = some [[]] ∧ ([] : Str).length = 0 := by
  exact ⟨by decide, rfl⟩

/-- C8 (amended): at its call site (chunk size 4000, overlap 500), every text
of length at most the chunk size is returned as exactly one verbatim chunk,
and for every NONEMPTY input no chunk of the returned list is empty; the
empty input is the sole exception, yielding the single empty chunk. -/
theorem C8_chunker_amended :
    (∀ text : Str, text.length ≤ 4000 →
      splitIntoChunks text 4000 500 = some [text]) ∧
    (∀ (text : Str) (chunks : List Str), text ≠ [] →
      splitIntoChunks text 4000 500 = some chunks → ∀ c ∈ chunks, c ≠ []) := by
  constructor
  · intro text hlen
    rw [splitIntoChunks, if_pos hlen]
  · intro text chunks hne hsplit c hc
    rw [splitIntoChunks] at hsplit
    by_cases hlen : text.length ≤ 4000
    · rw [if_pos hlen] at hsplit
      have : chunks = [text] := (Option.some.inj hsplit).symm
      rw [this] at hc
      rcases List.mem_cons.mp hc with rfl | hc'
      · exact hne
      · exact absurd hc' (List.not_mem_nil c)
    · rw [if_neg hlen] at hsplit
      exact splitLoop_chunks_ne_nil text 4000 500 (by omega) _ 0 chunks hsplit c hc

/-- C8 witness: the amended theorem applied to the nonempty five-character
text "short" (one verbatim chunk, and that chunk is nonempty). -/
theorem C8_chunker_witness :
    splitIntoChunks "short".toList 4000 500 = some ["short".toList] ∧
    "short".toList ≠ [] :=
  ⟨C8_chunker_amended.1 "short".toList (by decide),
   C8_chunker_amended.2 "short".toList ["short".toList] (by decide)
     (C8_chunker_amended.1 "short".toList (by decide))
     "short".toList (by decide)⟩

/-- C10 (confirmed): whenever `10 * overlap < 7 * chunk_size` — the
call-site configuration overlap 500, chunk size 4000 included — the chunk
loop terminates on every text within `len(text) + 1` iterations (the fuelled
loop returns a result), because every iteration moves `end` more than
`0.7 * chunk_size` past the previous `start` even when the sentence-boundary
adjustment shrinks the chunk, so `start = end - overlap` strictly
increases. -/
theorem C10_chunker_termination (text : Str) (cs ov : Nat)
    (h : 10 * ov < 7 * cs) :
    (splitIntoChunks text cs ov).isSome = true ∧
    ∀ start : Nat, 7 * cs < 10 * ((adjustChunk text cs start).2 - start) ∧
      start < (adjustChunk text cs start).2 - ov := by
  constructor
  · rw [splitIntoChunks]
    by_cases hlen : text.length ≤ cs
    · rw [if_pos hlen]; rfl
    · rw [if_neg hlen]
      exact splitLoop_isSome text cs ov h (text.length + 1) 0 (by omega)
  · intro start
    exact adjustChunk_advances text cs ov start h

/-- C10 witness: the theorem applied at overlap 2, chunk size 3 (which
satisfy 10*2 < 7*3) on a ten-character text that exercises the loop. -/
theorem C10_chunker_termination_witness :
    10 * 2 < 7 * 3 ∧
    (splitIntoChunks "abcdefgh.j".toList 3 2).isSome = true :=
  ⟨by decide, (C10_chunker_termination "abcdefgh.j".toList 3 2 (by decide)).1⟩

/-- C1 counterexample: with exactly 3 entities in the store (and any number
of relationships — the function takes no relationship input at all), the
coverage check reports insufficient even when the LLM would judge
sufficient, because it short-circuits below 6 entities; the claimed rule
`>= 3 OR >= 2` says sufficient at 3 entities and 2 relationships. -/
theorem C1_coverage_check_counterexample :
    sampleDb3.length = 3 ∧
    claimedCoverageRule 3 2 = true ∧
    pyLookup (checkDatabaseCoverage "AI".toList sampleDb3
        (.parsed true [] [] [])) "sufficient".toList = some (.pbool false) := by
  exact ⟨by decide, by decide, by decide⟩

/-- C1 (amended): the first-step coverage check consults only the entity
count from the graph store and the LLM judgment: its verdict is sufficient
iff the store holds at least 6 entities AND the LLM call succeeded, parsed,
and reported sufficient; with fewer than 6 entities it is always
insufficient, and the relationship count plays no role (it is not even an
input of the function). -/
theorem C1_coverage_check_amended (query : Str) (dbEntities : List DbEntity)
    (llm : LlmJudgment) :
    pyLookup (checkDatabaseCoverage query dbEntities llm)
        "sufficient".toList =
      some (.pbool (decide (6 ≤ dbEntities.length) && llmSufficientFlag llm)) := by
  rw [checkDatabaseCoverage.eq_def]
  by_cases h6 : dbEntities.length < 6
  · rw [if_pos h6]
    have : decide (6 ≤ dbEntities.length) = false := by
      simp only [decide_eq_false_iff_not]
      omega
    simp [pyLookup, this]
  · rw [if_neg h6]
    have : decide (6 ≤ dbEntities.length) = true := by
      simp only [decide_eq_true_eq]
      omega
    cases llm <;> simp [pyLookup, llmSufficientFlag, this]

/-- C2 counterexample: on a query whose verdicts never report sufficiency
(the LLM call failing on every iteration), the handler performs zero
Search/Extract/Store rounds — not `MAX_ITERATIONS = 3` of them — because the
statistics logging raises `KeyError('entity_count')` and every request takes
the exception path. -/
theorem C2_budget_termination_counterexample :
    pyLookup (checkDatabaseCoverage "Tesla".toList [] .callFailed)
        "sufficient".toList = some (.pbool false) ∧
    (analyzeQuery "Tesla".toList [] .callFailed).searchRounds = 0 ∧
    MAX_ITERATIONS = 3 ∧
    (analyzeQuery "Tesla".toList [] .callFailed).searchRounds ≠ MAX_ITERATIONS := by
  exact ⟨by decide, by decide, by decide, by decide⟩

theorem coverage_has_no_entity_count (query : Str) (dbEntities : List DbEntity)
    (llm : LlmJudgment) :
    pyLookup (checkDatabaseCoverage query dbEntities llm)
        "entity_count".toList = none := by
  rw [checkDatabaseCoverage.eq_def]
  by_cases h6 : dbEntities.length < 6
  · rw [if_pos h6]; simp [pyLookup]
  · rw [if_neg h6]; cases llm <;> simp [pyLookup]

/-- C2 (amended): for every query, graph-store state and LLM behaviour, the
`/analyze` handler terminates after zero Search/Extract/Store rounds with an
error-status, report-shaped response: the coverage dictionary has no
`entity_count` key, so the statistics logging raises and the top-level
`except` answers.  In particular the handler never loops, and the declared
iteration budget `MAX_ITERATIONS = 3` is never consulted. -/
theorem C2_budget_termination_amended (query : Str) (dbEntities : List DbEntity)
    (llm : LlmJudgment) :
    analyzeQuery query dbEntities llm =
      { status := "error".toList, reportPresent := true, searchRounds := 0 } ∧
    MAX_ITERATIONS = 3 := by
  refine ⟨?_, rfl⟩
  rw [analyzeQuery, coverage_has_no_entity_count]

/-! C9 lemmas: the second application of the same batch is absorbed. -/
theorem mergeQueryNode_components (g : GraphState) (q : Str) :
    (mergeQueryNode g q).entities = g.entities ∧
    (mergeQueryNode g q).found = g.found ∧
    (mergeQueryNode g q).rels = g.rels := by
  rw [mergeQueryNode]
  split <;> exact ⟨rfl, rfl, rfl⟩

theorem upsertEntityNode_found (g : GraphState) (e : Entity) :
    (upsertEntityNode g e).found = g.found := by
  rw [upsertEntityNode]; split <;> rfl

theorem upsertEntityNode_rels (g : GraphState) (e : Entity) :
    (upsertEntityNode g e).rels = g.rels := by
  rw [upsertEntityNode]; split <;> rfl

theorem upsertEntity_entities (g : GraphState) (q : Str) (e : Entity) :
    (upsertEntity g q e).entities = (upsertEntityNode g e).entities := by
  rw [upsertEntity]; split <;> rfl

theorem upsertEntity_rels (g : GraphState) (q : Str) (e : Entity) :
    (upsertEntity g q e).rels = g.rels := by
  rw [upsertEntity]
  split <;> simp [upsertEntityNode_rels]

theorem upsertEntity_found_mem (g : GraphState) (q : Str) (e : Entity) :
    (q, e.name) ∈ (upsertEntity g q e).found := by
  rw [upsertEntity]
  split <;> rename_i hf
  · exact hf
  · exact List.mem_append.mpr (Or.inr (List.mem_singleton.mpr rfl))

theorem upsertEntity_found_mono (g : GraphState) (q : Str) (e : Entity)
    (x : Str × Str) (hx : x ∈ g.found) : x ∈ (upsertEntity g q e).found := by
  rw [upsertEntity]
  split
  · rw [upsertEntityNode_found]; exact hx
  · show x ∈ (upsertEntityNode g e).found ++ [(q, e.name)]
    rw [upsertEntityNode_found]
    exact List.mem_append.mpr (Or.inl hx)

theorem upsertEntityNode_establishes (g : GraphState) (e : Entity) :
    (∃ se ∈ (upsertEntityNode g e).entities, se.name = e.name) ∧
    (∀ se ∈ (upsertEntityNode g e).entities, se.name = e.name →
      e.description.length ≤ se.description.length) := by
  rw [upsertEntityNode]
  split <;> rename_i hp
  · constructor
    · obtain ⟨se, hse, hname⟩ := hp
      refine ⟨_, List.mem_map_of_mem _ hse, ?_⟩
      rw [if_pos hname]
      exact hname
    · intro se' hse' hname'
      obtain ⟨se, hse, rfl⟩ := List.mem_map.mp hse'
      by_cases hn : se.name = e.name
      · rw [if_pos hn]
        simp only
        split <;> omega
      · rw [if_neg hn] at hname' ⊢
        exact absurd hname' hn
  · constructor
    · exact ⟨_, List.mem_append.mpr (Or.inr (List.mem_singleton.mpr rfl)), rfl⟩
    · intro se' hse' hname'
      rcases List.mem_append.mp hse' with hl | hr
      · exact absurd ⟨se', hl, hname'⟩ hp
      · rw [List.mem_singleton.mp hr]

theorem upsertEntityNode_preserves (g : GraphState) (e e' : Entity)
    (hex : ∃ se ∈ g.entities, se.name = e.name)
    (hall : ∀ se ∈ g.entities, se.name = e.name →
      e.description.length ≤ se.description.length) :
    (∃ se ∈ (upsertEntityNode g e').entities, se.name = e.name) ∧
    (∀ se ∈ (upsertEntityNode g e').entities, se.name = e.name →
      e.description.length ≤ se.description.length) := by
  rw [upsertEntityNode]
  split <;> rename_i hp
  · constructor
    · obtain ⟨se, hse, hname⟩ := hex
      refine ⟨_, List.mem_map_of_mem _ hse, ?_⟩
      by_cases hn : se.name = e'.name
      · rw [if_pos hn]; exact hname
      · rw [if_neg hn]; exact hname
    · intro se' hse' hname'
      obtain ⟨se, hse, rfl⟩ := List.mem_map.mp hse'
      by_cases hn : se.name = e'.name
      · rw [if_pos hn] at hname' ⊢
        simp only at hname' ⊢
        have hd := hall se hse hname'
        split <;> omega
      · rw [if_neg hn] at hname' ⊢
        exact hall se hse hname'
  · constructor
    · obtain ⟨se, hse, hname⟩ := hex
      exact ⟨se, List.mem_append.mpr (Or.inl hse), hname⟩
    · intro se' hse' hname'
      rcases List.mem_append.mp hse' with hl | hr
      · exact hall se' hl hname'
      · rw [List.mem_singleton.mp hr] at hname'
        simp only at hname'
        obtain ⟨se, hse, hn⟩ := hex
        exact absurd ⟨se, hse, by rw [hn, ← hname']⟩ hp

theorem absorbedE_after_upsert (g : GraphState) (q : Str) (e : Entity) :
    absorbedE (upsertEntity g q e) q e := by
  obtain ⟨hex, hall⟩ := upsertEntityNode_establishes g e
  refine ⟨?_, ?_, upsertEntity_found_mem g q e⟩
  · rw [upsertEntity_entities]; exact hex
  · rw [upsertEntity_entities]; exact hall

theorem absorbedE_preserved_upsertEntity (g : GraphState) (q : Str)
    (e e' : Entity) (h : absorbedE g q e) :
    absorbedE (upsertEntity g q e') q e := by
  obtain ⟨hex, hall, hfd⟩ := h
  obtain ⟨hex2, hall2⟩ := upsertEntityNode_preserves g e e' hex hall
  refine ⟨?_, ?_, upsertEntity_found_mono g q e' _ hfd⟩
  · rw [upsertEntity_entities]; exact hex2
  · rw [upsertEntity_entities]; exact hall2

theorem absorbedE_upsert_eq (g : GraphState) (q : Str) (e : Entity)
    (h : absorbedE g q e) : upsertEntity g q e = g := by
  obtain ⟨hex, hall, hfd⟩ := h
  have hnode : upsertEntityNode g e = g := by
    rw [upsertEntityNode, if_pos hex]
    have hmap : g.entities.map (fun se =>
        if se.name = e.name then
          { se with description :=
              if se.description.length < e.description.length
              then e.description else se.description }
        else se) = g.entities := by
      rw [List.map_congr_left, List.map_id']
      intro se hse
      by_cases hn : se.name = e.name
      · rw [if_pos hn]
        have : ¬ se.description.length < e.description.length := by
          have := hall se hse hn
          omega
        rw [if_neg this]
      · rw [if_neg hn]
    rw [hmap]
  rw [upsertEntity, hnode, if_pos hfd]

theorem upsertRelationship_entities (g : GraphState) (r : Relationship) :
    (upsertRelationship g r).entities = g.entities := by
  rw [upsertRelationship]
  split
  · split <;> rfl
  · rfl

theorem upsertRelationship_found (g : GraphState) (r : Relationship) :
    (upsertRelationship g r).found = g.found := by
  rw [upsertRelationship]
  split
  · split <;> rfl
  · rfl

theorem upsertRelationship_rels_mono (g : GraphState) (r : Relationship)
    (k : Str × Str × Str) (hk : k ∈ g.rels.map (fun p => p.1)) :
    k ∈ (upsertRelationship g r).rels.map (fun p => p.1) := by
  rw [upsertRelationship]
  split
  · split
    · exact hk
    · simp only [List.map_append]
      exact List.mem_append.mpr (Or.inl hk)
  · exact hk

theorem absorbedR_after_upsert (g : GraphState) (r : Relationship) :
    absorbedR (upsertRelationship g r) r := by
  intro hs ht
  rw [upsertRelationship_entities] at hs ht
  rw [upsertRelationship]
  rw [if_pos ⟨hs, ht⟩]
  split <;> rename_i hk
  · exact hk
  · simp only [List.map_append]
    refine List.mem_append.mpr (Or.inr ?_)
    simp

theorem absorbedR_preserved_upsertRelationship (g : GraphState)
    (r r' : Relationship) (h : absorbedR g r) :
    absorbedR (upsertRelationship g r') r := by
  intro hs ht
  rw [upsertRelationship_entities] at hs ht
  exact upsertRelationship_rels_mono g r' _ (h hs ht)

theorem absorbedR_upsert_eq (g : GraphState) (r : Relationship)
    (h : absorbedR g r) : upsertRelationship g r = g := by
  rw [upsertRelationship]
  split <;> rename_i hcond
  · rw [if_pos (h hcond.1 hcond.2)]
  · rfl

theorem absorbedE_preserved_upsertRelationship (g : GraphState) (q : Str)
    (e : Entity) (r : Relationship) (h : absorbedE g q e) :
    absorbedE (upsertRelationship g r) q e := by
  obtain ⟨hex, hall, hfd⟩ := h
  refine ⟨?_, ?_, ?_⟩
  · rw [upsertRelationship_entities]; exact hex
  · rw [upsertRelationship_entities]; exact hall
  · rw [upsertRelationship_found]; exact hfd

theorem absorbedE_preserved_mergeQueryNode (g : GraphState) (q q' : Str)
    (e : Entity) (h : absorbedE g q e) : absorbedE (mergeQueryNode g q') q e := by
  obtain ⟨hc1, hc2, hc3⟩ := mergeQueryNode_components g q'
  obtain ⟨hex, hall, hfd⟩ := h
  exact ⟨by rw [hc1]; exact hex, by rw [hc1]; exact hall, by rw [hc2]; exact hfd⟩

theorem absorbedR_preserved_mergeQueryNode (g : GraphState) (q' : Str)
    (r : Relationship) (h : absorbedR g r) :
    absorbedR (mergeQueryNode g q') r := by
  obtain ⟨hc1, hc2, hc3⟩ := mergeQueryNode_components g q'
  intro hs ht
  rw [hc1] at hs ht
  rw [hc3]
  exact h hs ht

theorem absorbedE_preserved_entityFold (q : Str) (es : List Entity) :
    ∀ (g : GraphState) (e : Entity), absorbedE g q e →
    absorbedE (es.foldl (fun acc x => upsertEntity acc q x) g) q e := by
  induction es with
  | nil => intro g e h; exact h
  | cons e' es ih =>
    intro g e h
    exact ih _ _ (absorbedE_preserved_upsertEntity g q e e' h)

theorem entityFold_establishes (q : Str) (es : List Entity) :
    ∀ (g : GraphState) (e : Entity), e ∈ es →
    absorbedE (es.foldl (fun acc x => upsertEntity acc q x) g) q e := by
  induction es with
  | nil => intro g e h; exact absurd h (List.not_mem_nil e)
  | cons e' es ih =>
    intro g e h
    rcases List.mem_cons.mp h with rfl | h'
    · exact absorbedE_preserved_entityFold q es _ e (absorbedE_after_upsert g q e)
    · exact ih _ e h'

theorem entityFold_absorbed_eq (q : Str) (es : List Entity) :
    ∀ g : GraphState, (∀ e ∈ es, absorbedE g q e) →
    es.foldl (fun acc x => upsertEntity acc q x) g = g := by
  induction es with
  | nil => intro g h; rfl
  | cons e' es ih =>
    intro g h
    rw [List.foldl_cons,
        absorbedE_upsert_eq g q e' (h e' (List.mem_cons_self _ _))]
    exact ih g (fun e he => h e (List.mem_cons_of_mem _ he))

theorem absorbedE_preserved_relFold (q : Str) (rs : List Relationship) :
    ∀ (g : GraphState) (e : Entity), absorbedE g q e →
    absorbedE (rs.foldl upsertRelationship g) q e := by
  induction rs with
  | nil => intro g e h; exact h
  | cons r rs ih =>
    intro g e h
    exact ih _ _ (absorbedE_preserved_upsertRelationship g q e r h)

theorem absorbedR_preserved_relFold (rs : List Relationship) :
    ∀ (g : GraphState) (r : Relationship), absorbedR g r →
    absorbedR (rs.foldl upsertRelationship g) r := by
  induction rs with
  | nil => intro g r h; exact h
  | cons r' rs ih =>
    intro g r h
    exact ih _ _ (absorbedR_preserved_upsertRelationship g r r' h)

theorem relFold_establishes (rs : List Relationship) :
    ∀ (g : GraphState) (r : Relationship), r ∈ rs →
    absorbedR (rs.foldl upsertRelationship g) r := by
  induction rs with
  | nil => intro g r h; exact absurd h (List.not_mem_nil r)
  | cons r' rs ih =>
    intro g r h
    rcases List.mem_cons.mp h with rfl | h'
    · exact absorbedR_preserved_relFold rs _ r (absorbedR_after_upsert g r)
    · exact ih _ r h'

theorem relFold_absorbed_eq (rs : List Relationship) :
    ∀ g : GraphState, (∀ r ∈ rs, absorbedR g r) →
    rs.foldl upsertRelationship g = g := by
  induction rs with
  | nil => intro g h; rfl
  | cons r' rs ih =>
    intro g h
    rw [List.foldl_cons,
        absorbedR_upsert_eq g r' (h r' (List.mem_cons_self _ _))]
    exact ih g (fun r hr => h r (List.mem_cons_of_mem _ hr))

/-- C9 (confirmed): applying the same entity/relationship batch a second
time only bumps the query node's counter: entities merge on `name`,
relationships merge on `(source, relation, target)`, the longer description
wins, and no node or edge is duplicated, so re-application leaves the entity
list, the relationship list, the FOUND edges, and in particular the entity
and relationship counts exactly as after the first application. -/
theorem C9_idempotent_store (g : GraphState) (q : Str) (es : List Entity)
    (rs : List Relationship) :
    storeExtractionResults (storeExtractionResults g q es rs) q es rs =
      mergeQueryNode (storeExtractionResults g q es rs) q ∧
    (storeExtractionResults (storeExtractionResults g q es rs) q es rs).entities =
      (storeExtractionResults g q es rs).entities ∧
    (storeExtractionResults (storeExtractionResults g q es rs) q es rs).rels =
      (storeExtractionResults g q es rs).rels ∧
    (storeExtractionResults (storeExtractionResults g q es rs) q es rs).found =
      (storeExtractionResults g q es rs).found ∧
    (storeExtractionResults (storeExtractionResults g q es rs) q es rs).entities.length =
      (storeExtractionResults g q es rs).entities.length ∧
    (storeExtractionResults (storeExtractionResults g q es rs) q es rs).rels.length =
      (storeExtractionResults g q es rs).rels.length := by
  have hE1 : ∀ e ∈ es, absorbedE (storeExtractionResults g q es rs) q e := by
    intro e he
    rw [storeExtractionResults]
    exact absorbedE_preserved_relFold q rs _ e
      (entityFold_establishes q es (mergeQueryNode g q) e he)
  have hR1 : ∀ r ∈ rs, absorbedR (storeExtractionResults g q es rs) r := by
    intro r hr
    rw [storeExtractionResults]
    exact relFold_establishes rs _ r hr
  have hmain : storeExtractionResults (storeExtractionResults g q es rs) q es rs =
      mergeQueryNode (storeExtractionResults g q es rs) q := by
    conv =>
      lhs
      rw [storeExtractionResults]
    rw [entityFold_absorbed_eq q es _ (fun e he =>
      absorbedE_preserved_mergeQueryNode _ q q e (hE1 e he))]
    rw [relFold_absorbed_eq rs _ (fun r hr =>
      absorbedR_preserved_mergeQueryNode _ q r (hR1 r hr))]
  obtain ⟨hc1, hc2, hc3⟩ :=
    mergeQueryNode_components (storeExtractionResults g q es rs) q
  refine ⟨hmain, ?_, ?_, ?_, ?_, ?_⟩
  · rw [hmain, hc1]
  · rw [hmain, hc3]
  · rw [hmain, hc2]
  · rw [hmain, hc1]
  · rw [hmain, hc3]
